import Mathlib

/-!
# Verification of the gqlforge resolver-engine specification

Shallow embedding of the parts of the `gqlforge` repository that the
specification's testable properties talk about:

* `gqlforge-chunk/src/chunk.rs` — the persistent `Chunk` rope;
* `src/core/ir/access_expr.rs` — the claims access-expression evaluator;
* `src/core/ir/eval_io.rs` — the dedupe/cache envelope around IO evaluation;
* `src/core/postgres/request_template.rs` — the SQL synthesizer;
* `src/core/grpc/stream.rs` — the gRPC length-prefix frame decoder;
* `src/core/graphql/sse_client.rs` — the SSE event parser.

Rust strings are modelled as Lean `String` / `List Char`; byte buffers as
`List Nat` (each element a byte value); machine integers as `Nat` with
explicit bounds where overflow matters; fallible code as `Except String`.
-/

namespace Gqlforge

/-! ## Chunk rope (`gqlforge-chunk/src/chunk.rs`)

`Chunk<A>` is a persistent sequence.  `Rc`/`RefCell` sharing is purely an
optimisation in the source; observationally a `Collect` holds its vector.
The one behavioural fork in `Chunk::concat` — the uniquely-owned `Collect`
may be pushed in place, otherwise a fresh `Concat` node is built — depends
on the runtime `Rc::strong_count`, which we model with an explicit boolean
`uniq` so that theorems quantify over both outcomes. -/

inductive Chunk (A : Type u) where
  /-- `Chunk::Empty` -/
  | Empty : Chunk A
  /-- `Chunk::Single(a)` -/
  | Single : A → Chunk A
  /-- `Chunk::Concat(l, r)` -/
  | Concat : Chunk A → Chunk A → Chunk A
  /-- `Chunk::Collect(vec)` -/
  | Collect : List A → Chunk A
  /-- `Chunk::TransformFlatten(c, f)` -/
  | TransformFlatten : Chunk A → (A → Chunk A) → Chunk A

namespace Chunk

/-- `Chunk::new` -/
def new (a : A) : Chunk A := Chunk.Single a

/-- `Chunk::is_null` -/
def is_null : Chunk A → Bool
  | .Empty => true
  | .Collect v => v.isEmpty
  | _ => false

/-- `Chunk::concat`.  `uniq` models the `Rc::strong_count(&vec) == 1` test
on the `(Collect, Single)` case: when unique the source pushes onto the
vector in place (observationally a new `Collect`), else it builds a
`Concat` node. -/
def concat (uniq : Bool) : Chunk A → Chunk A → Chunk A
  | .Empty, other => other
  | this, .Empty => this
  | .Single a, .Single b => .Collect [a, b]
  | .Collect v, .Single a =>
      if uniq then .Collect (v ++ [a])
      else .Concat (.Collect v) (.Single a)
  | this, that => .Concat this that

/-- `Chunk::append` -/
def append (uniq : Bool) (c : Chunk A) (a : A) : Chunk A :=
  c.concat uniq (Chunk.new a)

/-- `Chunk::as_vec_mut`: pushes the chunk's elements onto `buf`. -/
def as_vec_mut : Chunk A → List A → List A
  | .Empty, buf => buf
  | .Single a, buf => buf ++ [a]
  | .Concat a b, buf => as_vec_mut b (as_vec_mut a buf)
  | .TransformFlatten a f, buf =>
      let tmp := as_vec_mut a []
      tmp.foldl (fun buf elem => as_vec_mut (f elem) buf) buf
  | .Collect v, buf => buf ++ v

/-- `Chunk::as_vec` -/
def as_vec (c : Chunk A) : List A := c.as_vec_mut []

end Chunk

/-! ## Access expressions (`src/core/ir/access_expr.rs`)

JSON values are modelled structurally; serde_json numbers appearing in
claims are modelled as integers (`AccessExpr` number literals are `i64`).
Equality of `serde_json::Value` is structural equality. -/

inductive Json where
  | null : Json
  | bool : Bool → Json
  | num : Int → Json
  | str : String → Json
  | arr : List Json → Json
  | obj : List (String × Json) → Json

mutual

/-- Structural equality of `serde_json::Value` (its derived `PartialEq`). -/
def Json.beq : Json → Json → Bool
  | .null, .null => true
  | .bool a, .bool b => a == b
  | .num a, .num b => a == b
  | .str a, .str b => a == b
  | .arr xs, .arr ys => Json.beqList xs ys
  | .obj xs, .obj ys => Json.beqFields xs ys
  | _, _ => false

def Json.beqList : List Json → List Json → Bool
  | [], [] => true
  | x :: xs, y :: ys => Json.beq x y && Json.beqList xs ys
  | _, _ => false

def Json.beqFields : List (String × Json) → List (String × Json) → Bool
  | [], [] => true
  | (k, v) :: xs, (l, w) :: ys => k == l && Json.beq v w && Json.beqFields xs ys
  | _, _ => false

end

/-- Equality on `Option<serde_json::Value>` (Rust `l == r` on the resolved
operands). -/
def jsonOptBeq : Option Json → Option Json → Bool
  | none, none => true
  | some a, some b => a.beq b
  | _, _ => false

/-- `serde_json::Value::get(key)`: object member lookup (first match; serde
maps have unique keys).  Non-objects yield `None` for a string key. -/
def Json.get (j : Json) (key : String) : Option Json :=
  match j with
  | .obj fields => fields.lookup key
  | _ => none

inductive Operand where
  | Path : List String → Operand
  | StringLiteral : String → Operand
  | NumberLiteral : Int → Operand
  | BoolLiteral : Bool → Operand

inductive AccessExpr where
  | And : AccessExpr → AccessExpr → AccessExpr
  | Or : AccessExpr → AccessExpr → AccessExpr
  | Not : AccessExpr → AccessExpr
  | Eq : Operand → Operand → AccessExpr
  | Neq : Operand → Operand → AccessExpr

/-- The slice of `EvalContext` that `resolve_operand` reads: the
`request_ctx.auth_claims` JSON (if set) and the generic `path_string`
resolution used for non-`claims` paths. -/
structure EvalContext where
  auth_claims : Option Json
  path_string : List String → Option String

/-- `resolve_operand` (`access_expr.rs:62-86`): `claims.*` paths with at
least two segments are resolved directly from the claims JSON, preserving
types; other paths go through `path_string`, stringified. -/
def resolve_operand (ctx : EvalContext) : Operand → Option Json
  | .Path segments =>
      if segments.head? = some "claims" ∧ segments.length > 1 then
        match ctx.auth_claims with
        | none => none
        | some claims => segments.tail.foldlM (fun cur seg => cur.get seg) claims
      else (ctx.path_string segments).map Json.str
  | .StringLiteral s => some (.str s)
  | .NumberLiteral n => some (.num n)
  | .BoolLiteral b => some (.bool b)

/-- `AccessExpr::evaluate` (`access_expr.rs:40-59`).  Rust `&&` / `||`
short-circuit, so the right operand is only evaluated when needed. -/
def AccessExpr.evaluate (ctx : EvalContext) : AccessExpr → Except String Bool
  | .And l r => do
      let lv ← l.evaluate ctx
      if lv then r.evaluate ctx else pure false
  | .Or l r => do
      let lv ← l.evaluate ctx
      if lv then pure true else r.evaluate ctx
  | .Not e => do
      let v ← e.evaluate ctx
      pure (!v)
  | .Eq l r => pure (jsonOptBeq (resolve_operand ctx l) (resolve_operand ctx r))
  | .Neq l r => pure (!jsonOptBeq (resolve_operand ctx l) (resolve_operand ctx r))

/-! ## The dedupe/cache envelope (`src/core/ir/eval_io.rs`)

`eval_io` decides, from the IO's `dedupe` flag and the operation type,
whether the inner evaluation runs directly or inside the TTL-cache /
single-flight envelope.  The envelope internals (`request_ctx.cache.dedupe`
and `request_ctx.dedupe_handler.dedupe`) and the inner evaluation
`eval_io_inner` are asynchronous and external to this file's scope; they
are abstracted as oracle functions, and the control-flow decision — the
content of claim C5 — is recorded in an explicit event trace. -/

/-- Modelled from the spec: `GraphQLOperationType` (its defining module is
not among the provided sources); per the spec the current GraphQL
operation is a Query or a Mutation. -/
inductive GraphQLOperationType where
  | Query : GraphQLOperationType
  | Mutation : GraphQLOperationType
deriving DecidableEq

/-- Modelled from the spec: `EvalContext::is_query` — true iff "the current
GraphQL operation is a Query (never Mutation)". -/
def is_query : GraphQLOperationType → Bool
  | .Query => true
  | .Mutation => false

/-- Trace events of one `eval_io` call. -/
inductive IoEvent (K : Type) where
  /-- `eval_io_inner` invoked directly, outside the envelope. -/
  | innerEval : IoEvent K
  /-- The dedupe/cache envelope entered with cache key `k`: the TTL cache
  (`request_ctx.cache.dedupe`) and, inside it, the single-flight registry
  (`request_ctx.dedupe_handler.dedupe`) are consulted. -/
  | envelope : K → IoEvent K

/-- The oracles abstracting the envelope internals: each receives the
cache key and the result the wrapped computation would produce. -/
structure EnvelopeOracles (K V E : Type) where
  cacheDedupe : K → Except E V → Except E V
  handlerDedupe : K → Except E V → Except E V

/-- `eval_io` (`eval_io.rs:18-42`): when `dedupe` is false or the operation
is not a Query, return `eval_io_inner` directly; otherwise compute the
cache key and, when one exists, evaluate inside
`cache.dedupe(key, || dedupe_handler.dedupe(key, || eval_io_inner(..)))`;
when no key exists fall back to the direct call. -/
def eval_io {K V E : Type} (dedupe : Bool) (op : GraphQLOperationType)
    (cache_key : Option K) (inner : Except E V)
    (oracles : EnvelopeOracles K V E) : Except E V × List (IoEvent K) :=
  if !dedupe || !is_query op then
    (inner, [.innerEval])
  else
    match cache_key with
    | some key =>
        (oracles.cacheDedupe key (oracles.handlerDedupe key inner),
          [.envelope key])
    | none => (inner, [.innerEval])

/-! ## PostgreSQL SQL synthesizer (`src/core/postgres/request_template.rs`)

A `Mustache` template is touched by the synthesizer only through
`m.render(ctx)`, so an evaluation context is modelled by the rendering
function it induces on templates.  `parse_json_object` delegates to the
external `serde_json` crate and then stringifies the values; it is
modelled as an arbitrary parser function `pj` from the rendered string to
either an error or the stringified key/value entries, so every theorem
below holds for whatever the real JSON parser returns. -/

abbrev Mustache : Type := String

abbrev RenderCtx : Type := Mustache → String

/-- `Mustache::render(ctx)`. -/
def Mustache.render (m : Mustache) (ctx : RenderCtx) : String := ctx m

/-- The behaviour of `parse_json_object` (`request_template.rs:301-320`):
parse the rendered string and return stringified key/value entries, or an
error for invalid / non-object JSON. -/
abbrev JsonParser : Type := String → Except String (List (String × String))

/-- `str::replace('"', "\"\"")` as used by `quote_ident`. -/
def escape_quotes (s : String) : String :=
  ⟨s.data.foldr (fun c acc => if c = '"' then '"' :: '"' :: acc else c :: acc) []⟩

/-- `quote_ident` (`request_template.rs:11-13`): double-quote an
identifier, doubling embedded double quotes. -/
def quote_ident (name : String) : String :=
  "\"" ++ escape_quotes name ++ "\""

inductive PostgresOperation where
  | Select | SelectOne | Insert | Update | Delete
deriving DecidableEq

structure RequestTemplate where
  table : String
  operation : PostgresOperation
  filter : Option Mustache
  input : Option Mustache
  limit : Option Mustache
  offset : Option Mustache
  order_by : Option Mustache
  /-- Column names (resolved from `DatabaseSchema` at compile time). -/
  columns : List String

structure RenderedQuery where
  sql : String
  params : List String
deriving DecidableEq

/-- `Vec::join(sep)`: elements interspersed with `sep`. -/
def join_sep (sep : String) : List String → String
  | [] => ""
  | [x] => x
  | x :: xs => x ++ sep ++ join_sep sep xs

/-- `str::trim` (whitespace from both ends). -/
def str_trim (s : String) : String :=
  ⟨((s.data.dropWhile Char.isWhitespace).reverse.dropWhile Char.isWhitespace).reverse⟩

/-- `str::split(',')`: split at every comma, keeping empty pieces. -/
def split_comma (s : String) : List String :=
  (List.splitOnP (fun d => d = ',') s.data).map String.mk

/-- `str::split_whitespace`: maximal non-whitespace runs. -/
def split_whitespace (s : String) : List String :=
  ((List.splitOnP Char.isWhitespace s.data).map String.mk).filter (fun t => t ≠ "")

/-- `str::to_uppercase` (ASCII; the sanitizer only compares against
`ASC`/`DESC`). -/
def to_uppercase (s : String) : String :=
  ⟨s.data.map Char.toUpper⟩

/-- `sanitize_order_by` (`request_template.rs:276-299`). -/
def sanitize_order_by (rendered : String) (columns : List String) : String :=
  join_sep ", "
    ((split_comma rendered).filterMap (fun part =>
      let part := str_trim part
      if part = "" then none
      else
        match split_whitespace part with
        | [] => none
        | col :: rest =>
          if columns.contains col then
            let dir := (rest.head?.map to_uppercase).getD ""
            if dir = "ASC" then some (quote_ident col ++ " ASC")
            else if dir = "DESC" then some (quote_ident col ++ " DESC")
            else if dir = "" then some (quote_ident col)
            else none
          else none))

/-- The per-part ORDER BY rule as the specification's sentence states it:
keep a part only if its first whitespace-delimited token exactly matches a
known column and its optional second token is `ASC` or `DESC` up to case;
re-emit the kept part with the column double-quoted. -/
def order_by_part_spec (columns : List String) (part : String) : Option String :=
  match split_whitespace (str_trim part) with
  | [] => none
  | [col] => if columns.contains col then some (quote_ident col) else none
  | col :: dir :: _ =>
      if columns.contains col ∧ (to_uppercase dir = "ASC" ∨ to_uppercase dir = "DESC")
      then some (quote_ident col ++ " " ++ to_uppercase dir)
      else none

/-- The clause-building loop shared by `render_filter` and
`render_update`: entry `i` (0-based) contributes
`"key" = $(offset + i + 1)` (the Rust loop pushes the value first, so the
placeholder index is `offset + params.len()`). -/
def eq_param_clauses (offset : Nat) : List (String × String) → List String
  | [] => []
  | (k, _) :: rest =>
      (quote_ident k ++ " = $" ++ toString (offset + 1))
        :: eq_param_clauses (offset + 1) rest

/-- The placeholder loop of `render_insert`: entry `i` contributes
`$(offset + i + 1)`. -/
def value_placeholders (offset : Nat) : List (String × String) → List String
  | [] => []
  | _ :: rest =>
      ("$" ++ toString (offset + 1)) :: value_placeholders (offset + 1) rest

namespace RequestTemplate

/-- `RequestTemplate::select_columns`. -/
def select_columns (tpl : RequestTemplate) : String :=
  if tpl.columns.isEmpty then "*"
  else join_sep ", " (tpl.columns.map quote_ident)

/-- `RequestTemplate::render_filter` (`request_template.rs:228-250`): the
rendered filter is parsed into entries; each entry `(k, v)` pushes `v`
onto the parameters and emits `"k" = $N` with `N = offset + position`;
the clauses are joined by `AND`, an empty entry list yields `TRUE`. -/
def render_filter (pj : JsonParser) (filter : Mustache) (ctx : RenderCtx)
    (offset : Nat) : Except String (String × List String) := do
  let rendered := filter.render ctx
  let entries ← pj rendered
  let params := entries.map Prod.snd
  let clauses := eq_param_clauses offset entries
  let clause := if clauses.isEmpty then "TRUE"
    else join_sep " AND " clauses
  pure (clause, params)

/-- The `ORDER BY` block of `render_select` (`request_template.rs:68-76`):
append the sanitised clause when the rendered `orderBy` and its sanitised
form are nonempty. -/
def order_by_stage (order_by : Option Mustache) (ctx : RenderCtx)
    (columns : List String) (sql : String) : String :=
  match order_by with
  | some ob =>
      let rendered := ob.render ctx
      if rendered = "" then sql
      else
        let sanitized := sanitize_order_by rendered columns
        if sanitized = "" then sql else sql ++ " ORDER BY " ++ sanitized
  | none => sql

/-- The `LIMIT` block of `render_select` (`request_template.rs:78-84`):
push the rendered value and emit ` LIMIT $N` when nonempty. -/
def limit_stage (limit : Option Mustache) (ctx : RenderCtx)
    (acc : String × List String) : String × List String :=
  match limit with
  | some l =>
      let rendered := l.render ctx
      if rendered = "" then acc
      else (acc.1 ++ " LIMIT $" ++ toString (acc.2.length + 1),
        acc.2 ++ [rendered])
  | none => acc

/-- The `OFFSET` block of `render_select` (`request_template.rs:86-92`). -/
def offset_stage (offset : Option Mustache) (ctx : RenderCtx)
    (acc : String × List String) : String × List String :=
  match offset with
  | some o =>
      let rendered := o.render ctx
      if rendered = "" then acc
      else (acc.1 ++ " OFFSET $" ++ toString (acc.2.length + 1),
        acc.2 ++ [rendered])
  | none => acc

/-- `RequestTemplate::render_select` (`request_template.rs:56-95`). -/
def render_select (pj : JsonParser) (tpl : RequestTemplate) (ctx : RenderCtx) :
    Except String RenderedQuery := do
  let cols := tpl.select_columns
  let table := quote_ident tpl.table
  let sql0 := "SELECT " ++ cols ++ " FROM " ++ table
  let (sql1, params1) ← match tpl.filter with
    | some f => do
        let wcp ← render_filter pj f ctx 0
        pure (sql0 ++ " WHERE " ++ wcp.1, wcp.2)
    | none => pure (sql0, [])
  let sql2 := order_by_stage tpl.order_by ctx tpl.columns sql1
  let acc3 := limit_stage tpl.limit ctx (sql2, params1)
  let acc4 := offset_stage tpl.offset ctx acc3
  pure (RenderedQuery.mk acc4.1 acc4.2)

/-- `RequestTemplate::render_select_one` (`request_template.rs:97-114`):
columns, table and filter exactly as in `render_select`, then `LIMIT 1`;
`order_by`, `limit` and `offset` are not consulted. -/
def render_select_one (pj : JsonParser) (tpl : RequestTemplate)
    (ctx : RenderCtx) : Except String RenderedQuery := do
  let cols := tpl.select_columns
  let table := quote_ident tpl.table
  let sql0 := "SELECT " ++ cols ++ " FROM " ++ table
  let (sql1, params1) ← match tpl.filter with
    | some f => do
        let wcp ← render_filter pj f ctx 0
        pure (sql0 ++ " WHERE " ++ wcp.1, wcp.2)
    | none => pure (sql0, [])
  pure (RenderedQuery.mk (sql1 ++ " LIMIT 1") params1)

/-- `RequestTemplate::render_insert` (`request_template.rs:116-156`). -/
def render_insert (pj : JsonParser) (tpl : RequestTemplate) (ctx : RenderCtx) :
    Except String RenderedQuery := do
  let input_json := (tpl.input.map (fun m => m.render ctx)).getD ""
  let entries ← pj input_json
  if entries.isEmpty then
    throw "INSERT requires at least one field in input"
  let unknown := (entries.filter
    (fun kv => ¬ tpl.columns.contains kv.1)).map Prod.fst
  if ¬ tpl.columns.isEmpty ∧ ¬ unknown.isEmpty then
    throw ("Unknown column(s) in INSERT input: " ++ join_sep ", " unknown)
  let cols := entries.map (fun kv => quote_ident kv.1)
  let params := entries.map Prod.snd
  let placeholders := value_placeholders 0 entries
  let col_list := join_sep ", " cols
  let val_list := join_sep ", " placeholders
  let ret_cols := tpl.select_columns
  let table := quote_ident tpl.table
  pure (RenderedQuery.mk
    ("INSERT INTO " ++ table ++ " (" ++ col_list ++ ") VALUES (" ++ val_list
      ++ ") RETURNING " ++ ret_cols)
    params)

/-- `RequestTemplate::render_update` (`request_template.rs:158-206`). -/
def render_update (pj : JsonParser) (tpl : RequestTemplate) (ctx : RenderCtx) :
    Except String RenderedQuery := do
  if tpl.filter.isNone then
    throw "UPDATE without a filter is not allowed (would affect all rows)"
  let input_json := (tpl.input.map (fun m => m.render ctx)).getD ""
  let entries ← pj input_json
  if entries.isEmpty then
    throw "UPDATE requires at least one field in input"
  let unknown := (entries.filter
    (fun kv => ¬ tpl.columns.contains kv.1)).map Prod.fst
  if ¬ tpl.columns.isEmpty ∧ ¬ unknown.isEmpty then
    throw ("Unknown column(s) in UPDATE input: " ++ join_sep ", " unknown)
  let params0 := entries.map Prod.snd
  let set_clauses := eq_param_clauses 0 entries
  let set_str := join_sep ", " set_clauses
  let ret_cols := tpl.select_columns
  let table := quote_ident tpl.table
  let sql0 := "UPDATE " ++ table ++ " SET " ++ set_str
  let (sql1, params1) ← match tpl.filter with
    | some f => do
        let wcp ← render_filter pj f ctx params0.length
        pure (sql0 ++ " WHERE " ++ wcp.1, params0 ++ wcp.2)
    | none => pure (sql0, params0)
  pure (RenderedQuery.mk (sql1 ++ " RETURNING " ++ ret_cols) params1)

/-- `RequestTemplate::render_delete` (`request_template.rs:208-224`). -/
def render_delete (pj : JsonParser) (tpl : RequestTemplate) (ctx : RenderCtx) :
    Except String RenderedQuery := do
  if tpl.filter.isNone then
    throw "DELETE without a filter is not allowed (would affect all rows)"
  let table := quote_ident tpl.table
  let sql0 := "DELETE FROM " ++ table
  let (sql1, params1) ← match tpl.filter with
    | some f => do
        let wcp ← render_filter pj f ctx 0
        pure (sql0 ++ " WHERE " ++ wcp.1, wcp.2)
    | none => pure (sql0, [])
  pure (RenderedQuery.mk sql1 params1)

/-- `RequestTemplate::render` (`request_template.rs:46-54`). -/
def render (pj : JsonParser) (tpl : RequestTemplate) (ctx : RenderCtx) :
    Except String RenderedQuery :=
  match tpl.operation with
  | .Select => render_select pj tpl ctx
  | .SelectOne => render_select_one pj tpl ctx
  | .Insert => render_insert pj tpl ctx
  | .Update => render_update pj tpl ctx
  | .Delete => render_delete pj tpl ctx

end RequestTemplate

/-- The fixed SQL fragments the synthesizer emits between identifiers and
placeholders.  None of them carries request data. -/
def sql_tokens : List String :=
  ["SELECT ", ", ", "*", " FROM ", " WHERE ", "TRUE", " = $", " AND ",
   " ORDER BY ", " ASC", " DESC", " LIMIT $", " OFFSET $", " LIMIT 1", "$",
   "INSERT INTO ", " (", ") VALUES (", ") RETURNING ", " RETURNING ",
   "UPDATE ", " SET ", "DELETE FROM "]

/-- Strings built only from fixed SQL fragments, identifiers passed
through `quote_ident` (drawn from a known identifier list), and decimal
numerals (placeholder indices): the shape claim C1 asserts of every
emitted SQL string. -/
inductive SafeSql (ids : List String) : String → Prop where
  | empty : SafeSql ids ""
  | fixed (s t : String) : s ∈ sql_tokens → SafeSql ids t → SafeSql ids (s ++ t)
  | ident (i t : String) : i ∈ ids → SafeSql ids t →
      SafeSql ids (quote_ident i ++ t)
  | num (n : Nat) (t : String) : SafeSql ids t → SafeSql ids (toString n ++ t)

/-- The entries `render` actually parses out of the filter template. -/
def filter_entries (pj : JsonParser) (tpl : RequestTemplate)
    (ctx : RenderCtx) : List (String × String) :=
  match tpl.filter with
  | some f => ((pj (Mustache.render f ctx)).toOption).getD []
  | none => []

/-- The entries `render` actually parses out of the input template. -/
def input_entries (pj : JsonParser) (tpl : RequestTemplate)
    (ctx : RenderCtx) : List (String × String) :=
  ((pj ((tpl.input.map (fun m => Mustache.render m ctx)).getD "")).toOption).getD []

/-- The filter/input entries consumed by the template's operation:
`Select`/`SelectOne`/`Delete` parse only the filter, `Insert` only the
input, `Update` first the input and then the filter. -/
def entries_used (pj : JsonParser) (tpl : RequestTemplate)
    (ctx : RenderCtx) : List (String × String) :=
  match tpl.operation with
  | .Select => filter_entries pj tpl ctx
  | .SelectOne => filter_entries pj tpl ctx
  | .Delete => filter_entries pj tpl ctx
  | .Insert => input_entries pj tpl ctx
  | .Update => input_entries pj tpl ctx ++ filter_entries pj tpl ctx

/-- Every identifier that may legitimately appear in the rendered SQL:
the table, the compile-time columns, and the parsed entry keys. -/
def idents_of (pj : JsonParser) (tpl : RequestTemplate)
    (ctx : RenderCtx) : List String :=
  tpl.table :: (tpl.columns ++ (entries_used pj tpl ctx).map Prod.fst)

/-- Two JSON-parser behaviours that agree on success/failure and on the
key lists, but may return arbitrarily different values. -/
def keys_agree (pj pj' : JsonParser) : Prop :=
  ∀ s, Except.map (List.map Prod.fst) (pj s)
    = Except.map (List.map Prod.fst) (pj' s)

/-! ## gRPC frame decoder (`src/core/grpc/stream.rs`)

Bytes are modelled as `Nat` values (< 256 for well-formed input); `Bytes`
buffers as `List Nat`.  The `decode` loop consumes at least 5 bytes per
iteration, so running it with the buffer length as fuel is exact. -/

/-- `u32::from_be_bytes([b1, b2, b3, b4])`. -/
def be32_val (b1 b2 b3 b4 : Nat) : Nat :=
  b1 * 16777216 + b2 * 65536 + b3 * 256 + b4

/-- The loop body of `GrpcFrameDecoder::decode` (`stream.rs:30-52`): while
at least 5 bytes are buffered and the buffer covers the big-endian message
length in bytes 1-4, strip the 5-byte header, emit the payload, and
continue; otherwise stop, retaining the buffer. -/
def grpc_decode_loop : Nat → List Nat → List (List Nat) × List Nat
  | 0, buf => ([], buf)
  | fuel + 1, buf =>
      match buf with
      | _flag :: b1 :: b2 :: b3 :: b4 :: rest =>
          let msg_len := be32_val b1 b2 b3 b4
          if rest.length < msg_len then ([], buf)
          else
            let payload := rest.take msg_len
            let next := grpc_decode_loop fuel (rest.drop msg_len)
            (payload :: next.1, next.2)
      | _ => ([], buf)

/-- `grpc_decode_loop` on a buffer with exactly enough fuel: the pure
"extract every complete frame" function the stateful decoder computes. -/
def grpc_extract (bytes : List Nat) : List (List Nat) × List Nat :=
  grpc_decode_loop bytes.length bytes

/-- `GrpcFrameDecoder` state: the retained incomplete tail. -/
structure GrpcFrameDecoder where
  buffer : List Nat

/-- `GrpcFrameDecoder::new` -/
def GrpcFrameDecoder.new : GrpcFrameDecoder := ⟨[]⟩

/-- `GrpcFrameDecoder::decode` (`stream.rs:26-55`): append the chunk to
the buffer, then extract every complete frame. -/
def GrpcFrameDecoder.decode (d : GrpcFrameDecoder) (chunk : List Nat) :
    List (List Nat) × GrpcFrameDecoder :=
  let res := grpc_extract (d.buffer ++ chunk)
  (res.1, ⟨res.2⟩)

/-- Feed a sequence of chunks through one decoder, concatenating the
emitted payloads. -/
def GrpcFrameDecoder.decode_chunks (d : GrpcFrameDecoder) :
    List (List Nat) → List (List Nat) × GrpcFrameDecoder
  | [] => ([], d)
  | c :: cs =>
      let step := d.decode c
      let rest := step.2.decode_chunks cs
      (step.1 ++ rest.1, rest.2)

/-- A gRPC frame on the wire: 1-byte compression flag, 4-byte big-endian
length, payload. -/
structure GrpcFrame where
  flag : Nat
  payload : List Nat

/-- Big-endian 4-byte encoding of a `u32` (`u32::to_be_bytes`). -/
def be32 (n : Nat) : List Nat :=
  [n / 16777216 % 256, n / 65536 % 256, n / 256 % 256, n % 256]

/-- A buffer on which the decode loop makes no progress: shorter than a
header, or the buffered message length exceeds the remaining bytes. -/
def grpc_stuck (bytes : List Nat) : Prop :=
  match bytes with
  | _ :: b1 :: b2 :: b3 :: b4 :: rest => rest.length < be32_val b1 b2 b3 b4
  | _ => True

/-- Wire encoding of one frame. -/
def encode_frame (f : GrpcFrame) : List Nat :=
  f.flag :: (be32 f.payload.length ++ f.payload)

/-- Wire encoding of a frame sequence. -/
def encode_frames (fs : List GrpcFrame) : List Nat :=
  (fs.map encode_frame).flatten

/-- How many of the leading frames are completely contained in the first
`n` bytes of their encoding (each frame occupies `5 + |payload|` bytes). -/
def frames_complete : List GrpcFrame → Nat → Nat
  | [], _ => 0
  | f :: fs, n =>
      if 5 + f.payload.length ≤ n then
        1 + frames_complete fs (n - (5 + f.payload.length))
      else 0

/-- Total wire size of the frames completely contained in the first `n`
bytes of the encoding. -/
def frames_consumed : List GrpcFrame → Nat → Nat
  | [], _ => 0
  | f :: fs, n =>
      if 5 + f.payload.length ≤ n then
        (5 + f.payload.length) + frames_consumed fs (n - (5 + f.payload.length))
      else 0

/-! ## SSE event parser (`src/core/graphql/sse_client.rs`)

The byte buffer is modelled as `List Char` (one element per byte; the
`String::from_utf8_lossy` UTF-8 decoding step is elided, which is faithful
for ASCII/valid-UTF-8 streams — the delimiter and `data:` markers are
ASCII).  Rust string helpers (`lines`, `strip_prefix`, `trim_start`) are
modelled on character lists. -/

/-- `find_double_newline` (`sse_client.rs:56-58`): position of the first
`\n\n` window. -/
def find_double_newline : List Char → Option Nat
  | [] => none
  | [_] => none
  | a :: b :: rest =>
      if a = '\n' ∧ b = '\n' then some 0
      else (find_double_newline (b :: rest)).map (· + 1)

/-- `str::strip_prefix(p)`: drop `p` from the front when it is a prefix. -/
def strip_front : List Char → List Char → Option (List Char)
  | [], l => some l
  | _ :: _, [] => none
  | a :: ps, b :: ls => if a = b then strip_front ps ls else none

/-- Drop one trailing `\r` (the `\r` of a `\r\n` line terminator). -/
def strip_trailing_cr (l : List Char) : List Char :=
  if l.getLast? = some '\r' then l.dropLast else l

/-- `str::lines()`: split at `\n`; every piece but the last was
terminated, and terminated pieces have a trailing `\r` stripped; a final
empty piece (from a trailing `\n`) yields no extra line. -/
def rust_lines (s : List Char) : List (List Char) :=
  let pieces := List.splitOnP (fun c => c = '\n') s
  let term := pieces.dropLast.map strip_trailing_cr
  match pieces.getLast? with
  | some [] => term
  | some last => term ++ [last]
  | none => term

/-- `str::trim_start()` (ASCII whitespace). -/
def trim_start_ws (l : List Char) : List Char := l.dropWhile Char.isWhitespace

/-- The per-line `data` extraction of `extract_data_lines`
(`sse_client.rs:61-74`): `data:`-prefixed lines contribute their
value with leading whitespace trimmed; a bare `data` line contributes an
empty value; all other lines (`event:`, `id:`, `retry:`, comments, …)
contribute nothing. -/
def data_line_parts (block : List Char) : List (List Char) :=
  (rust_lines block).filterMap (fun line =>
    match strip_front ("data:".data) line with
    | some value => some (trim_start_ws value)
    | none =>
        match strip_front ("data".data) line with
        | some value => if value = [] then some [] else none
        | none => none)

/-- `extract_data_lines`: the block's data parts joined by `\n`. -/
def extract_data_lines (block : List Char) : List Char :=
  List.intercalate ['\n'] (data_line_parts block)

/-- The loop body of `SseEventParser::decode` (`sse_client.rs:28-49`):
while the buffer contains a `\n\n`, split off the event block before it,
extract its data, emit the data when nonempty, and continue past the
delimiter.  Each iteration consumes at least 2 characters, so the buffer
length is sufficient fuel. -/
def sse_decode_loop : Nat → List Char → List (List Char) × List Char
  | 0, buf => ([], buf)
  | fuel + 1, buf =>
      match find_double_newline buf with
      | none => ([], buf)
      | some pos =>
          let event_block := buf.take pos
          let data := extract_data_lines event_block
          let next := sse_decode_loop fuel (buf.drop (pos + 2))
          if data = [] then (next.1, next.2)
          else (data :: next.1, next.2)

/-- `sse_decode_loop` with exactly enough fuel: the pure "extract every
complete event" function the stateful parser computes. -/
def sse_extract (buf : List Char) : List (List Char) × List Char :=
  sse_decode_loop buf.length buf

/-- `SseEventParser` state: the retained incomplete tail. -/
structure SseEventParser where
  buffer : List Char
deriving DecidableEq

/-- `SseEventParser::new` -/
def SseEventParser.new : SseEventParser := ⟨[]⟩

/-- `SseEventParser::decode` (`sse_client.rs:24-52`). -/
def SseEventParser.decode (p : SseEventParser) (chunk : List Char) :
    List (List Char) × SseEventParser :=
  let res := sse_extract (p.buffer ++ chunk)
  (res.1, ⟨res.2⟩)

/-- Feed a sequence of chunks through one parser, concatenating the
emitted payloads. -/
def SseEventParser.decode_chunks (p : SseEventParser) :
    List (List Char) → List (List Char) × SseEventParser
  | [] => ([], p)
  | c :: cs =>
      let step := p.decode c
      let rest := step.2.decode_chunks cs
      (step.1 ++ rest.1, rest.2)

/-- A byte stream of complete SSE events: each block followed by the
blank-line delimiter. -/
def sse_event_stream (blocks : List (List Char)) : List Char :=
  (blocks.map (fun b => b ++ ['\n', '\n'])).flatten

/-- The payloads claim C8 predicts, as stated: one payload per event
block that has `data` lines — the block's data parts joined by `\n` —
and nothing for blocks without `data` lines. -/
def sse_claim_payloads (blocks : List (List Char)) : List (List Char) :=
  (blocks.filter (fun b => data_line_parts b ≠ [])).map extract_data_lines

end Gqlforge

/-! ## Theorems -/

namespace Gqlforge

namespace Chunk

theorem as_vec_mut_eq_append (c : Chunk A) :
    ∀ buf : List A, c.as_vec_mut buf = buf ++ c.as_vec_mut [] := by
  induction c with
  | Empty => intro buf; simp [as_vec_mut]
  | Single a => intro buf; simp [as_vec_mut]
  | Concat a b iha ihb =>
      intro buf
      simp only [as_vec_mut]
      rw [iha buf, ihb (buf ++ a.as_vec_mut []), ihb (a.as_vec_mut [])]
      rw [List.append_assoc]
  | Collect v => intro buf; simp [as_vec_mut]
  | TransformFlatten a f iha ihf =>
      intro buf
      simp only [as_vec_mut]
      generalize a.as_vec_mut [] = tmp
      induction tmp generalizing buf with
      | nil => simp
      | cons x xs ih =>
          simp only [List.foldl_cons]
          rw [ih ((f x).as_vec_mut buf), ih ((f x).as_vec_mut []), ihf x buf]
          rw [List.append_assoc]

theorem as_vec_mut_node (x y : Chunk A) :
    (Chunk.Concat x y).as_vec_mut [] = x.as_vec_mut [] ++ y.as_vec_mut [] := by
  simp only [as_vec_mut]
  exact as_vec_mut_eq_append y (x.as_vec_mut [])

theorem as_vec_mut_concat (uniq : Bool) (a b : Chunk A) :
    (a.concat uniq b).as_vec_mut [] = a.as_vec_mut [] ++ b.as_vec_mut [] := by
  cases uniq <;> cases a <;> cases b <;>
    first
    | rfl
    | exact (List.append_nil _).symm
    | exact as_vec_mut_node _ _

theorem concat_empty_right (uniq : Bool) (a : Chunk A) :
    a.concat uniq Chunk.Empty = a := by
  cases a <;> rfl

theorem concat_empty_left (uniq : Bool) (a : Chunk A) :
    Chunk.Empty.concat uniq a = a := by
  cases a <;> rfl

end Chunk

/-- C9: for every chunk `c` and element `x`, `as_vec (c.append x)` equals
`as_vec c` with `x` appended; for all chunks `a` and `b`,
`as_vec (a.concat b) = as_vec a ++ as_vec b`; and concatenating any chunk
with the empty chunk (on either side) returns the original chunk
(structural equality, hence observational equality).  `uniq` ranges over
both outcomes of the source's `Rc::strong_count` test. -/
theorem claim_c9_chunk_algebra {A : Type u} (uniq : Bool) (c a b : Chunk A)
    (x : A) :
    (c.append uniq x).as_vec = c.as_vec ++ [x]
    ∧ (a.concat uniq b).as_vec = a.as_vec ++ b.as_vec
    ∧ a.concat uniq Chunk.Empty = a
    ∧ Chunk.Empty.concat uniq a = a := by
  refine ⟨?_, ?_, Chunk.concat_empty_right uniq a, Chunk.concat_empty_left uniq a⟩
  · show (c.concat uniq (.Single x)).as_vec_mut [] = c.as_vec_mut [] ++ [x]
    exact Chunk.as_vec_mut_concat uniq c (.Single x)
  · exact Chunk.as_vec_mut_concat uniq a b

theorem Json.beq_bool_iff (v : Json) (b : Bool) :
    Json.beq v (.bool b) = true ↔ v = .bool b := by
  cases v <;> simp [Json.beq]

/-- C6: `claims.active == true` evaluates to true iff the claim `active`
is the JSON boolean `true`; when the claim is any other value (for
example the JSON string `"true"`), the expression evaluates to false. -/
theorem claim_c6_type_aware_eq (ctx : EvalContext) (c : Json)
    (hc : ctx.auth_claims = some c) :
    ((AccessExpr.Eq (.Path ["claims", "active"]) (.BoolLiteral true)).evaluate ctx
        = .ok true ↔ c.get "active" = some (.bool true))
    ∧ ∀ v, c.get "active" = some v → v ≠ .bool true →
        (AccessExpr.Eq (.Path ["claims", "active"]) (.BoolLiteral true)).evaluate ctx
          = .ok false := by
  have hres : resolve_operand ctx (.Path ["claims", "active"]) = c.get "active" := by
    simp [resolve_operand, hc, List.foldlM]
  constructor
  · rw [show (AccessExpr.Eq (.Path ["claims", "active"])
        (.BoolLiteral true)).evaluate ctx
        = .ok (jsonOptBeq (resolve_operand ctx (.Path ["claims", "active"]))
            (some (.bool true))) from rfl, hres]
    cases h : c.get "active" with
    | none => simp [jsonOptBeq]
    | some v => simp [jsonOptBeq, Json.beq_bool_iff]
  · intro v hv hne
    rw [show (AccessExpr.Eq (.Path ["claims", "active"])
        (.BoolLiteral true)).evaluate ctx
        = .ok (jsonOptBeq (resolve_operand ctx (.Path ["claims", "active"]))
            (some (.bool true))) from rfl, hres, hv]
    simp only [jsonOptBeq]
    rw [show Json.beq v (.bool true) = false by
      cases h : Json.beq v (.bool true)
      · rfl
      · exact absurd ((Json.beq_bool_iff v true).mp h) hne]

/-- Witness for C6 at a concrete claims object. -/
theorem claim_c6_witness :
    (AccessExpr.Eq (.Path ["claims", "active"]) (.BoolLiteral true)).evaluate
        ⟨some (.obj [("active", .bool true)]), fun _ => none⟩ = .ok true := by
  have h := claim_c6_type_aware_eq
    ⟨some (.obj [("active", .bool true)]), fun _ => none⟩
    (.obj [("active", .bool true)]) rfl
  exact h.1.mpr (by simp [Json.get])

/-- C10: when both operands are paths resolving to no value, `==`
evaluates to true and `!=` to false; equality of a missing path with any
operand that resolves to a value (a literal always does) is false. -/
theorem claim_c10_missing_path_eq (ctx : EvalContext) (sp sq : List String)
    (hp : resolve_operand ctx (.Path sp) = none)
    (hq : resolve_operand ctx (.Path sq) = none) :
    (AccessExpr.Eq (.Path sp) (.Path sq)).evaluate ctx = .ok true
    ∧ (AccessExpr.Neq (.Path sp) (.Path sq)).evaluate ctx = .ok false
    ∧ ∀ r v, resolve_operand ctx r = some v →
        (AccessExpr.Eq (.Path sp) r).evaluate ctx = .ok false
        ∧ (AccessExpr.Eq r (.Path sp)).evaluate ctx = .ok false := by
  refine ⟨?_, ?_, fun r v hr => ⟨?_, ?_⟩⟩ <;>
    simp [AccessExpr.evaluate, hp, hq, jsonOptBeq, pure, Except.pure, *]

/-- Witness for C10: no claims are set, so `claims.a` and `claims.b` are
both missing, while a string literal resolves. -/
theorem claim_c10_witness :
    (AccessExpr.Eq (.Path ["claims", "a"]) (.Path ["claims", "b"])).evaluate
        ⟨none, fun _ => none⟩ = .ok true
    ∧ (AccessExpr.Eq (.Path ["claims", "a"]) (.StringLiteral "x")).evaluate
        ⟨none, fun _ => none⟩ = .ok false := by
  have h := claim_c10_missing_path_eq ⟨none, fun _ => none⟩
    ["claims", "a"] ["claims", "b"] (by simp [resolve_operand])
    (by simp [resolve_operand])
  exact ⟨h.1, (h.2.2 (.StringLiteral "x") (.str "x") rfl).1⟩

/-- C5: when the IO's dedupe flag is false or the operation is not a Query
(in particular for every Mutation), `eval_io` bypasses the envelope and
invokes the inner evaluation directly; the envelope (TTL cache +
single-flight registry) is entered only when `dedupe = true`, the
operation is a Query, and a cache key exists. -/
theorem claim_c5_dedupe_bypass {K V E : Type} (dedupe : Bool)
    (op : GraphQLOperationType) (cache_key : Option K) (inner : Except E V)
    (oracles : EnvelopeOracles K V E) :
    ((dedupe = false ∨ op ≠ .Query) →
        eval_io dedupe op cache_key inner oracles = (inner, [.innerEval]))
    ∧ ∀ k, IoEvent.envelope k ∈ (eval_io dedupe op cache_key inner oracles).2 →
        dedupe = true ∧ op = .Query ∧ cache_key = some k := by
  constructor
  · rintro (rfl | hop)
    · simp [eval_io]
    · have : op = .Mutation := by cases op <;> simp_all
      subst this
      simp [eval_io, is_query]
  · intro k hk
    cases dedupe <;> cases op <;> cases cache_key <;>
      simp_all [eval_io, is_query]

theorem str_append_assoc (a b c : String) : a ++ b ++ c = a ++ (b ++ c) := by
  obtain ⟨la⟩ := a; obtain ⟨lb⟩ := b; obtain ⟨lc⟩ := c
  show String.mk (la ++ lb ++ lc) = String.mk (la ++ (lb ++ lc))
  rw [List.append_assoc]

theorem to_uppercase_ne_empty {s : String} (h : s ≠ "") :
    to_uppercase s ≠ "" := by
  obtain ⟨l⟩ := s
  intro hc
  apply h
  have hdata : l.map Char.toUpper = [] := congrArg String.data hc
  have hl : l = [] := by simpa using hdata
  rw [hl]

theorem split_whitespace_mem_ne_empty {s x : String}
    (hx : x ∈ split_whitespace s) : x ≠ "" := by
  simp only [split_whitespace, List.mem_filter] at hx
  simpa using hx.2

theorem split_whitespace_empty : split_whitespace "" = [] := by decide

/-- C3: the ORDER BY sanitizer, applied to any rendered string and
compile-time column list, equals the comma-split of the string filtered
through the specification's per-part rule (`order_by_part_spec`): keep a
part only when its first whitespace-delimited token is a known column and
its optional second token is ASC or DESC up to case; re-emit the kept
part with the column double-quoted. -/
theorem claim_c3_order_by_sanitizer (rendered : String)
    (columns : List String) :
    sanitize_order_by rendered columns
      = join_sep ", "
          ((split_comma rendered).filterMap (order_by_part_spec columns)) := by
  unfold sanitize_order_by
  congr 1
  apply List.filterMap_congr
  intro part _
  dsimp only
  by_cases h0 : str_trim part = ""
  · simp [h0, order_by_part_spec, split_whitespace_empty]
  · rw [if_neg h0]
    cases hsw : split_whitespace (str_trim part) with
    | nil => simp [order_by_part_spec, hsw]
    | cons col rest =>
        by_cases hcol : col ∈ columns
        · cases rest with
          | nil => simp [order_by_part_spec, hsw, hcol]
          | cons d rest2 =>
              have hd : d ≠ "" :=
                split_whitespace_mem_ne_empty (s := str_trim part)
                  (by rw [hsw]; simp)
              have hdU : to_uppercase d ≠ "" := to_uppercase_ne_empty hd
              by_cases hA : to_uppercase d = "ASC"
              · simp [order_by_part_spec, hsw, hcol, hA, str_append_assoc]
              · by_cases hD : to_uppercase d = "DESC"
                · simp [order_by_part_spec, hsw, hcol, hA, hD, str_append_assoc]
                · simp [order_by_part_spec, hsw, hcol, hA, hD, hdU]
        · cases rest with
          | nil => simp [order_by_part_spec, hsw, hcol]
          | cons d rest2 => simp [order_by_part_spec, hsw, hcol]

/-- C2: rendering an `Update` or `Delete` template with no filter always
returns an error, for every context and every JSON-parser behaviour. -/
theorem claim_c2_filterless_mutation_error (pj : JsonParser)
    (tpl : RequestTemplate) (ctx : RenderCtx)
    (hop : tpl.operation = .Update ∨ tpl.operation = .Delete)
    (hf : tpl.filter = none) :
    ∀ q, RequestTemplate.render pj tpl ctx ≠ .ok q := by
  intro q
  rcases hop with h | h <;>
    simp [RequestTemplate.render, h, RequestTemplate.render_update,
      RequestTemplate.render_delete, hf, throw, throwThe, Except.bind, bind]

/-- Witness for C2 at a concrete filterless UPDATE template. -/
theorem claim_c2_witness :
    RequestTemplate.render (fun _ => .ok [("name", "Alice")])
        ⟨"users", .Update, none, some "I", none, none, none, []⟩ (fun m => m)
      ≠ .ok (RenderedQuery.mk "" []) :=
  claim_c2_filterless_mutation_error _ _ _ (Or.inl rfl) rfl
    (RenderedQuery.mk "" [])

/-- Counterexample to C4 as stated: with an `orderBy` template rendering
`name ASC` (and `name` a known column), `Select` emits an `ORDER BY`
clause but `SelectOne` does not, so `SelectOne` is not `Select` plus a
final `LIMIT 1`. -/
theorem claim_c4_counterexample :
    RequestTemplate.render (fun _ => .ok [])
        ⟨"users", .SelectOne, none, none, none, none, some "ob", ["name"]⟩
        (fun _ => "name ASC")
      = .ok (RenderedQuery.mk "SELECT \"name\" FROM \"users\" LIMIT 1" [])
    ∧ RequestTemplate.render (fun _ => .ok [])
        ⟨"users", .Select, none, none, none, none, some "ob", ["name"]⟩
        (fun _ => "name ASC")
      = .ok (RenderedQuery.mk
          "SELECT \"name\" FROM \"users\" ORDER BY \"name\" ASC" [])
    ∧ ("SELECT \"name\" FROM \"users\" LIMIT 1" : String)
      ≠ "SELECT \"name\" FROM \"users\" ORDER BY \"name\" ASC" ++ " LIMIT 1" :=
  ⟨rfl, rfl, by decide⟩

/-- C4 (amended): `SelectOne` produces the same SQL and params as `Select`
on the identical template with `orderBy`, `limit` and `offset` cleared —
the filter is handled as in `Select` — with ` LIMIT 1` appended. -/
theorem claim_c4_select_one (pj : JsonParser) (table : String)
    (filter input limit offset order_by : Option Mustache)
    (columns : List String) (ctx : RenderCtx) :
    RequestTemplate.render pj
        ⟨table, .SelectOne, filter, input, limit, offset, order_by, columns⟩ ctx
      = (RequestTemplate.render pj
          ⟨table, .Select, filter, input, none, none, none, columns⟩ ctx).map
          (fun q => RenderedQuery.mk (q.sql ++ " LIMIT 1") q.params) := by
  cases filter with
  | none => rfl
  | some f =>
      simp only [RequestTemplate.render, RequestTemplate.render_select_one,
        RequestTemplate.render_select, RequestTemplate.render_filter]
      cases hpj : pj (Mustache.render f ctx) <;>
        simp [hpj, Except.bind, bind, Except.map, pure, Except.pure,
          RequestTemplate.select_columns, RequestTemplate.order_by_stage,
          RequestTemplate.limit_stage, RequestTemplate.offset_stage]

/-- Witness for C5: a Mutation with dedupe enabled still takes the direct
path. -/
theorem claim_c5_witness :
    eval_io (K := Nat) (V := Nat) (E := Nat) true .Mutation (some 1) (.ok 2)
        ⟨fun _ r => r, fun _ r => r⟩ = (.ok 2, [.innerEval]) :=
  (claim_c5_dedupe_bypass true .Mutation (some 1) (.ok 2)
    ⟨fun _ r => r, fun _ r => r⟩).1 (Or.inr (by simp))

theorem grpc_decode_loop_fuel : ∀ (fuel fuel' : Nat) (bytes : List Nat),
    bytes.length ≤ fuel → bytes.length ≤ fuel' →
    grpc_decode_loop fuel bytes = grpc_decode_loop fuel' bytes := by
  intro fuel
  induction fuel with
  | zero =>
      intro fuel' bytes h _
      have hb : bytes = [] := List.length_eq_zero.mp (Nat.le_zero.mp h)
      subst hb
      cases fuel' <;> rfl
  | succ n ih =>
      intro fuel' bytes h h'
      cases fuel' with
      | zero =>
          have hb : bytes = [] := List.length_eq_zero.mp (Nat.le_zero.mp h')
          subst hb
          rfl
      | succ m =>
          rcases bytes with _ | ⟨flag, _ | ⟨b1, _ | ⟨b2, _ | ⟨b3, _ | ⟨b4, rest⟩⟩⟩⟩⟩ <;>
            try rfl
          simp only [grpc_decode_loop]
          by_cases hlt : rest.length < be32_val b1 b2 b3 b4
          · simp [hlt]
          · simp only [hlt, if_false]
            have h1 : (rest.drop (be32_val b1 b2 b3 b4)).length ≤ n := by
              rw [List.length_drop]
              simp only [List.length_cons] at h
              omega
            have h2 : (rest.drop (be32_val b1 b2 b3 b4)).length ≤ m := by
              rw [List.length_drop]
              simp only [List.length_cons] at h'
              omega
            rw [ih m _ h1 h2]

theorem grpc_stuck_loop {bytes : List Nat} (h : grpc_stuck bytes) (fuel : Nat) :
    grpc_decode_loop fuel bytes = ([], bytes) := by
  cases fuel with
  | zero => rfl
  | succ n =>
      rcases bytes with _ | ⟨flag, _ | ⟨b1, _ | ⟨b2, _ | ⟨b3, _ | ⟨b4, rest⟩⟩⟩⟩⟩ <;>
        try rfl
      simp only [grpc_stuck] at h
      simp [grpc_decode_loop, h]

theorem grpc_loop_residual_stuck : ∀ (fuel : Nat) (bytes : List Nat),
    bytes.length ≤ fuel → grpc_stuck (grpc_decode_loop fuel bytes).2 := by
  intro fuel
  induction fuel with
  | zero =>
      intro bytes h
      have hb : bytes = [] := List.length_eq_zero.mp (Nat.le_zero.mp h)
      subst hb
      simp [grpc_decode_loop, grpc_stuck]
  | succ n ih =>
      intro bytes h
      rcases bytes with _ | ⟨flag, _ | ⟨b1, _ | ⟨b2, _ | ⟨b3, _ | ⟨b4, rest⟩⟩⟩⟩⟩ <;>
        try simp [grpc_decode_loop, grpc_stuck]
      by_cases hlt : rest.length < be32_val b1 b2 b3 b4
      · simp [grpc_decode_loop, hlt, grpc_stuck]
      · simp only [grpc_decode_loop, hlt, if_false]
        apply ih
        rw [List.length_drop]
        simp only [List.length_cons] at h
        omega

theorem grpc_extract_stuck_self {bytes : List Nat} (h : grpc_stuck bytes) :
    grpc_extract bytes = ([], bytes) :=
  grpc_stuck_loop h _

theorem grpc_extract_residual (bytes : List Nat) :
    grpc_extract (grpc_extract bytes).2 = ([], (grpc_extract bytes).2) :=
  grpc_stuck_loop (grpc_loop_residual_stuck _ _ le_rfl) _

theorem grpc_stuck_short {bytes : List Nat} (h : bytes.length < 5) :
    grpc_stuck bytes := by
  rcases bytes with _ | ⟨flag, _ | ⟨b1, _ | ⟨b2, _ | ⟨b3, _ | ⟨b4, rest⟩⟩⟩⟩⟩
  · trivial
  · trivial
  · trivial
  · trivial
  · trivial
  · exfalso
    simp only [List.length_cons] at h
    omega

theorem grpc_decode_loop_succ (fuel : Nat) (flag b1 b2 b3 b4 : Nat)
    (rest : List Nat) :
    grpc_decode_loop (fuel + 1) (flag :: b1 :: b2 :: b3 :: b4 :: rest)
      = if rest.length < be32_val b1 b2 b3 b4
        then ([], flag :: b1 :: b2 :: b3 :: b4 :: rest)
        else
          ((rest.take (be32_val b1 b2 b3 b4))
              :: (grpc_decode_loop fuel (rest.drop (be32_val b1 b2 b3 b4))).1,
            (grpc_decode_loop fuel (rest.drop (be32_val b1 b2 b3 b4))).2) := rfl

theorem grpc_extract_cons5 (flag b1 b2 b3 b4 : Nat) (rest : List Nat) :
    grpc_extract (flag :: b1 :: b2 :: b3 :: b4 :: rest)
      = if rest.length < be32_val b1 b2 b3 b4
        then ([], flag :: b1 :: b2 :: b3 :: b4 :: rest)
        else
          ((rest.take (be32_val b1 b2 b3 b4))
              :: (grpc_extract (rest.drop (be32_val b1 b2 b3 b4))).1,
            (grpc_extract (rest.drop (be32_val b1 b2 b3 b4))).2) := by
  have hlen : (flag :: b1 :: b2 :: b3 :: b4 :: rest).length = rest.length + 4 + 1 := by
    simp only [List.length_cons]
  show grpc_decode_loop (flag :: b1 :: b2 :: b3 :: b4 :: rest).length _ = _
  rw [hlen, grpc_decode_loop_succ]
  by_cases hlt : rest.length < be32_val b1 b2 b3 b4
  · simp [hlt]
  · simp only [hlt, if_false]
    have hfuel : grpc_decode_loop (rest.length + 4)
        (rest.drop (be32_val b1 b2 b3 b4))
        = grpc_extract (rest.drop (be32_val b1 b2 b3 b4)) := by
      apply grpc_decode_loop_fuel
      · rw [List.length_drop]; omega
      · exact le_rfl
    rw [hfuel]

theorem grpc_extract_append (bytes extra : List Nat) :
    grpc_extract (bytes ++ extra)
      = ((grpc_extract bytes).1
            ++ (grpc_extract ((grpc_extract bytes).2 ++ extra)).1,
        (grpc_extract ((grpc_extract bytes).2 ++ extra)).2) := by
  generalize hn : bytes.length = n
  induction n using Nat.strong_induction_on generalizing bytes with
  | _ n ih =>
    rcases bytes with _ | ⟨flag, _ | ⟨b1, _ | ⟨b2, _ | ⟨b3, _ | ⟨b4, rest⟩⟩⟩⟩⟩
    case nil => simp [grpc_extract, grpc_decode_loop]
    case cons.nil => simp [grpc_extract, grpc_decode_loop]
    case cons.cons.nil => simp [grpc_extract, grpc_decode_loop]
    case cons.cons.cons.nil => simp [grpc_extract, grpc_decode_loop]
    case cons.cons.cons.cons.nil => simp [grpc_extract, grpc_decode_loop]
    case cons.cons.cons.cons.cons =>
      rw [grpc_extract_cons5 flag b1 b2 b3 b4 rest]
      by_cases hlt : rest.length < be32_val b1 b2 b3 b4
      · rw [if_pos hlt]
        simp
      · rw [if_neg hlt]
        rw [show (flag :: b1 :: b2 :: b3 :: b4 :: rest) ++ extra
            = flag :: b1 :: b2 :: b3 :: b4 :: (rest ++ extra) from by simp]
        rw [grpc_extract_cons5 flag b1 b2 b3 b4 (rest ++ extra)]
        have hlt2 : ¬ ((rest ++ extra).length < be32_val b1 b2 b3 b4) := by
          rw [List.length_append]; omega
        rw [if_neg hlt2]
        have hm : be32_val b1 b2 b3 b4 ≤ rest.length := Nat.not_lt.mp hlt
        have htake : (rest ++ extra).take (be32_val b1 b2 b3 b4)
            = rest.take (be32_val b1 b2 b3 b4) := by
          rw [List.take_append_eq_append_take, Nat.sub_eq_zero_of_le hm]
          simp
        have hdrop : (rest ++ extra).drop (be32_val b1 b2 b3 b4)
            = rest.drop (be32_val b1 b2 b3 b4) ++ extra := by
          rw [List.drop_append_eq_append_drop, Nat.sub_eq_zero_of_le hm]
          simp
        rw [htake, hdrop]
        have hlt3 : (rest.drop (be32_val b1 b2 b3 b4)).length < n := by
          rw [List.length_drop]
          simp only [List.length_cons] at hn
          omega
        rw [ih _ hlt3 _ rfl]
        simp

theorem grpc_extract_encode (fs : List GrpcFrame)
    (hwf : ∀ f ∈ fs, f.payload.length < 4294967296) :
    grpc_extract (encode_frames fs) = (fs.map GrpcFrame.payload, []) := by
  induction fs with
  | nil => rfl
  | cons f fs ih =>
      have hL : f.payload.length < 4294967296 := hwf f (List.mem_cons_self f fs)
      have hbe : be32_val (f.payload.length / 16777216 % 256)
          (f.payload.length / 65536 % 256) (f.payload.length / 256 % 256)
          (f.payload.length % 256) = f.payload.length := by
        simp only [be32_val]
        omega
      rw [show encode_frames (f :: fs)
          = f.flag :: (f.payload.length / 16777216 % 256)
            :: (f.payload.length / 65536 % 256)
            :: (f.payload.length / 256 % 256)
            :: (f.payload.length % 256)
            :: (f.payload ++ encode_frames fs) from by
        simp [encode_frames, encode_frame, be32]]
      rw [grpc_extract_cons5, hbe]
      have hnlt : ¬ ((f.payload ++ encode_frames fs).length < f.payload.length) := by
        rw [List.length_append]; omega
      rw [if_neg hnlt, List.take_left, List.drop_left]
      rw [ih (fun g hg => hwf g (List.mem_cons_of_mem f hg))]
      simp

theorem grpc_extract_encode_take (fs : List GrpcFrame)
    (hwf : ∀ f ∈ fs, f.payload.length < 4294967296) :
    ∀ n, grpc_extract ((encode_frames fs).take n)
      = ((fs.map GrpcFrame.payload).take (frames_complete fs n),
        ((encode_frames fs).take n).drop (frames_consumed fs n)) := by
  induction fs with
  | nil =>
      intro n
      simp [encode_frames, frames_complete, frames_consumed, grpc_extract,
        grpc_decode_loop]
  | cons f fs ih =>
      intro n
      have hL : f.payload.length < 4294967296 := hwf f (List.mem_cons_self f fs)
      have hbe : be32_val (f.payload.length / 16777216 % 256)
          (f.payload.length / 65536 % 256) (f.payload.length / 256 % 256)
          (f.payload.length % 256) = f.payload.length := by
        simp only [be32_val]
        omega
      have hencf : encode_frame f
          = f.flag :: (f.payload.length / 16777216 % 256)
            :: (f.payload.length / 65536 % 256)
            :: (f.payload.length / 256 % 256)
            :: (f.payload.length % 256) :: f.payload := by
        simp [encode_frame, be32]
      have hlenf : (encode_frame f).length = 5 + f.payload.length := by
        rw [hencf]
        simp only [List.length_cons]
        omega
      by_cases hsz : 5 + f.payload.length ≤ n
      · have htaken : (encode_frames (f :: fs)).take n
            = f.flag :: (f.payload.length / 16777216 % 256)
              :: (f.payload.length / 65536 % 256)
              :: (f.payload.length / 256 % 256)
              :: (f.payload.length % 256)
              :: (f.payload ++ (encode_frames fs).take (n - (5 + f.payload.length))) := by
          rw [show encode_frames (f :: fs) = encode_frame f ++ encode_frames fs from by
            simp [encode_frames]]
          rw [List.take_append_eq_append_take,
            List.take_of_length_le (by omega : (encode_frame f).length ≤ n), hlenf,
            hencf]
          simp
        rw [htaken, grpc_extract_cons5, hbe]
        have hnlt : ¬ ((f.payload
            ++ (encode_frames fs).take (n - (5 + f.payload.length))).length
            < f.payload.length) := by
          rw [List.length_append]; omega
        rw [if_neg hnlt, List.take_left, List.drop_left]
        rw [ih (fun g hg => hwf g (List.mem_cons_of_mem f hg)) (n - (5 + f.payload.length))]
        have hfc : frames_complete (f :: fs) n
            = frames_complete fs (n - (5 + f.payload.length)) + 1 := by
          simp [frames_complete, hsz]
          omega
        have hcons : frames_consumed (f :: fs) n
            = (5 + f.payload.length)
              + frames_consumed fs (n - (5 + f.payload.length)) := by
          simp [frames_consumed, hsz]
        rw [hfc, hcons]
        have hdropc : ∀ (t : List Nat) (c : Nat),
            (f.flag :: (f.payload.length / 16777216 % 256)
              :: (f.payload.length / 65536 % 256)
              :: (f.payload.length / 256 % 256)
              :: (f.payload.length % 256) :: (f.payload ++ t)).drop
                (5 + f.payload.length + c)
            = t.drop c := by
          intro t c
          rw [show (5 + f.payload.length + c)
              = ((f.payload.length + c) + 1) + 1 + 1 + 1 + 1 from by omega]
          simp only [List.drop_succ_cons]
          rw [List.drop_append_eq_append_drop,
            List.drop_of_length_le (by omega : f.payload.length ≤ f.payload.length + c)]
          simp
        rw [hdropc]
        simp [List.take_succ_cons]
      · have h0 : frames_complete (f :: fs) n = 0 := by
          simp [frames_complete, hsz]
        have h0' : frames_consumed (f :: fs) n = 0 := by
          simp [frames_consumed, hsz]
        rw [h0, h0']
        simp only [List.take_zero, List.drop_zero]
        apply grpc_extract_stuck_self
        by_cases h5 : n < 5
        · apply grpc_stuck_short
          have := List.length_take n (encode_frames (f :: fs))
          omega
        · obtain ⟨n', rfl⟩ : ∃ n', n = n' + 5 := ⟨n - 5, by omega⟩
          have htaken : (encode_frames (f :: fs)).take (n' + 5)
              = f.flag :: (f.payload.length / 16777216 % 256)
                :: (f.payload.length / 65536 % 256)
                :: (f.payload.length / 256 % 256)
                :: (f.payload.length % 256)
                :: ((f.payload ++ encode_frames fs).take n') := by
            rw [show encode_frames (f :: fs)
                = f.flag :: (f.payload.length / 16777216 % 256)
                  :: (f.payload.length / 65536 % 256)
                  :: (f.payload.length / 256 % 256)
                  :: (f.payload.length % 256)
                  :: (f.payload ++ encode_frames fs) from by
              simp [encode_frames, encode_frame, be32]]
            rw [show n' + 5 = n' + 1 + 1 + 1 + 1 + 1 from by omega]
            simp [List.take_succ_cons]
          rw [htaken]
          simp only [grpc_stuck, hbe]
          have := List.length_take n' (f.payload ++ encode_frames fs)
          omega

theorem grpc_decode_chunks_eq (b : List Nat) (cs : List (List Nat))
    (hq : grpc_extract b = ([], b)) :
    GrpcFrameDecoder.decode_chunks ⟨b⟩ cs
      = ((grpc_extract (b ++ cs.flatten)).1,
        ⟨(grpc_extract (b ++ cs.flatten)).2⟩) := by
  induction cs generalizing b with
  | nil => simp [GrpcFrameDecoder.decode_chunks, hq]
  | cons c cs ih =>
      simp only [GrpcFrameDecoder.decode_chunks, GrpcFrameDecoder.decode]
      rw [ih _ (grpc_extract_residual (b ++ c))]
      rw [show b ++ (c :: cs).flatten = b ++ c ++ cs.flatten from by
        simp [List.flatten_cons, List.append_assoc]]
      rw [grpc_extract_append (b ++ c) cs.flatten]

/-- C7: feeding any chunk split of the concatenated encoding of a
well-formed frame sequence (flag byte, 4-byte big-endian length, payload,
zero-length payloads allowed) through `GrpcFrameDecoder::decode` emits
exactly the original payload sequence and ends with an empty buffer;
moreover, after any chunk prefix, exactly the payloads of the frames whose
encodings are completely contained in the bytes fed so far have been
emitted, and the decoder's buffer retains exactly the incomplete tail. -/
theorem claim_c7_grpc_frame_roundtrip (frames : List GrpcFrame)
    (chunks : List (List Nat))
    (hwf : ∀ f ∈ frames, f.payload.length < 4294967296)
    (hsplit : chunks.flatten = encode_frames frames) :
    GrpcFrameDecoder.decode_chunks GrpcFrameDecoder.new chunks
      = (frames.map GrpcFrame.payload, GrpcFrameDecoder.new)
    ∧ ∀ k, GrpcFrameDecoder.decode_chunks GrpcFrameDecoder.new (chunks.take k)
        = ((frames.map GrpcFrame.payload).take
            (frames_complete frames ((chunks.take k).flatten).length),
          ⟨((chunks.take k).flatten).drop
            (frames_consumed frames ((chunks.take k).flatten).length)⟩) := by
  have hq0 : grpc_extract ([] : List Nat) = ([], []) := rfl
  constructor
  · rw [show GrpcFrameDecoder.new = (⟨[]⟩ : GrpcFrameDecoder) from rfl]
    rw [grpc_decode_chunks_eq [] chunks hq0]
    rw [List.nil_append, hsplit, grpc_extract_encode frames hwf]
  · intro k
    have hpre : (chunks.take k).flatten <+: chunks.flatten := by
      refine ⟨(chunks.drop k).flatten, ?_⟩
      rw [← List.flatten_append, List.take_append_drop]
    have heq : (chunks.take k).flatten
        = (encode_frames frames).take ((chunks.take k).flatten).length := by
      rw [← hsplit]
      exact List.prefix_iff_eq_take.mp hpre
    rw [show GrpcFrameDecoder.new = (⟨[]⟩ : GrpcFrameDecoder) from rfl]
    rw [grpc_decode_chunks_eq [] (chunks.take k) hq0, List.nil_append]
    rw [heq, grpc_extract_encode_take frames hwf]
    rw [← heq]

/-- Witness for C7: two frames (payload `[7, 8]` and an empty payload)
split across uneven chunk boundaries. -/
theorem claim_c7_witness :
    GrpcFrameDecoder.decode_chunks GrpcFrameDecoder.new
        [[0, 0, 0], [0, 2, 7], [8, 1, 0, 0], [0, 0]]
      = ([[7, 8], []], GrpcFrameDecoder.new) :=
  (claim_c7_grpc_frame_roundtrip [⟨0, [7, 8]⟩, ⟨1, []⟩]
    [[0, 0, 0], [0, 2, 7], [8, 1, 0, 0], [0, 0]]
    (by decide) (by decide)).1

theorem sse_decode_loop_succ (fuel : Nat) (buf : List Char) :
    sse_decode_loop (fuel + 1) buf
      = match find_double_newline buf with
        | none => ([], buf)
        | some pos =>
            let data := extract_data_lines (buf.take pos)
            let next := sse_decode_loop fuel (buf.drop (pos + 2))
            if data = [] then (next.1, next.2)
            else (data :: next.1, next.2) := rfl

theorem fdn_some_le {buf : List Char} {p : Nat}
    (h : find_double_newline buf = some p) : p + 2 ≤ buf.length := by
  induction buf generalizing p with
  | nil => simp [find_double_newline] at h
  | cons a rest ih =>
      cases rest with
      | nil => simp [find_double_newline] at h
      | cons b rest2 =>
          by_cases hab : a = '\n' ∧ b = '\n'
          · simp only [find_double_newline, if_pos hab, Option.some.injEq] at h
            simp only [List.length_cons]
            omega
          · simp only [find_double_newline, if_neg hab] at h
            cases hfd : find_double_newline (b :: rest2) with
            | none => rw [hfd] at h; simp at h
            | some q =>
                rw [hfd] at h
                simp at h
                have := ih hfd
                simp only [List.length_cons] at *
                omega

theorem fdn_append_of_some {bytes : List Char} {p : Nat} (extra : List Char)
    (h : find_double_newline bytes = some p) :
    find_double_newline (bytes ++ extra) = some p := by
  induction bytes generalizing p with
  | nil => simp [find_double_newline] at h
  | cons a rest ih =>
      cases rest with
      | nil => simp [find_double_newline] at h
      | cons b rest2 =>
          by_cases hab : a = '\n' ∧ b = '\n'
          · simp only [find_double_newline, if_pos hab, Option.some.injEq] at h
            simp [find_double_newline, hab, ← h]
          · simp only [find_double_newline, if_neg hab] at h
            cases hfd : find_double_newline (b :: rest2) with
            | none => rw [hfd] at h; simp at h
            | some q =>
                rw [hfd] at h
                simp at h
                have hrec := ih hfd
                simp only [List.cons_append] at hrec ⊢
                simp [find_double_newline, hab, hrec, ← h]

theorem sse_decode_loop_fuel : ∀ (fuel fuel' : Nat) (buf : List Char),
    buf.length ≤ fuel → buf.length ≤ fuel' →
    sse_decode_loop fuel buf = sse_decode_loop fuel' buf := by
  intro fuel
  induction fuel with
  | zero =>
      intro fuel' buf h _
      have hb : buf = [] := List.length_eq_zero.mp (Nat.le_zero.mp h)
      subst hb
      cases fuel' <;> rfl
  | succ n ih =>
      intro fuel' buf h h'
      cases fuel' with
      | zero =>
          have hb : buf = [] := List.length_eq_zero.mp (Nat.le_zero.mp h')
          subst hb
          rfl
      | succ m =>
          rw [sse_decode_loop_succ, sse_decode_loop_succ]
          cases hfd : find_double_newline buf with
          | none => rfl
          | some pos =>
              have hle := fdn_some_le hfd
              have h1 : (buf.drop (pos + 2)).length ≤ n := by
                rw [List.length_drop]; omega
              have h2 : (buf.drop (pos + 2)).length ≤ m := by
                rw [List.length_drop]; omega
              simp only [ih m _ h1 h2]

theorem sse_extract_none {buf : List Char}
    (h : find_double_newline buf = none) : sse_extract buf = ([], buf) := by
  cases buf with
  | nil => rfl
  | cons x xs =>
      show sse_decode_loop (x :: xs).length _ = _
      rw [show (x :: xs).length = xs.length + 1 from rfl, sse_decode_loop_succ, h]

theorem sse_loop_residual_none : ∀ (fuel : Nat) (buf : List Char),
    buf.length ≤ fuel →
    find_double_newline (sse_decode_loop fuel buf).2 = none := by
  intro fuel
  induction fuel with
  | zero =>
      intro buf h
      have hb : buf = [] := List.length_eq_zero.mp (Nat.le_zero.mp h)
      subst hb
      rfl
  | succ n ih =>
      intro buf h
      rw [sse_decode_loop_succ]
      cases hfd : find_double_newline buf with
      | none => exact hfd
      | some pos =>
          have hle := fdn_some_le hfd
          have h1 : (buf.drop (pos + 2)).length ≤ n := by
            rw [List.length_drop]; omega
          have := ih _ h1
          by_cases hdata : extract_data_lines (buf.take pos) = [] <;>
            simp [hdata, this]

theorem sse_extract_residual (buf : List Char) :
    sse_extract (sse_extract buf).2 = ([], (sse_extract buf).2) :=
  sse_extract_none (sse_loop_residual_none _ _ le_rfl)

theorem sse_extract_step {buf : List Char} {pos : Nat}
    (h : find_double_newline buf = some pos) :
    sse_extract buf
      = (if extract_data_lines (buf.take pos) = []
         then ((sse_extract (buf.drop (pos + 2))).1,
           (sse_extract (buf.drop (pos + 2))).2)
         else (extract_data_lines (buf.take pos)
             :: (sse_extract (buf.drop (pos + 2))).1,
           (sse_extract (buf.drop (pos + 2))).2)) := by
  have hle := fdn_some_le h
  show sse_decode_loop buf.length buf = _
  rw [show buf.length = (buf.length - 1) + 1 from by omega, sse_decode_loop_succ, h]
  have hfuel : sse_decode_loop (buf.length - 1) (buf.drop (pos + 2))
      = sse_extract (buf.drop (pos + 2)) := by
    apply sse_decode_loop_fuel
    · rw [List.length_drop]; omega
    · exact le_rfl
  simp only [hfuel]

theorem sse_extract_append (bytes extra : List Char) :
    sse_extract (bytes ++ extra)
      = ((sse_extract bytes).1
            ++ (sse_extract ((sse_extract bytes).2 ++ extra)).1,
        (sse_extract ((sse_extract bytes).2 ++ extra)).2) := by
  generalize hn : bytes.length = n
  induction n using Nat.strong_induction_on generalizing bytes with
  | _ n ih =>
    cases hfd : find_double_newline bytes with
    | none =>
        rw [sse_extract_none hfd]
        simp
    | some pos =>
        have hle := fdn_some_le hfd
        have hfd2 : find_double_newline (bytes ++ extra) = some pos :=
          fdn_append_of_some extra hfd
        rw [sse_extract_step hfd, sse_extract_step hfd2]
        have htake : (bytes ++ extra).take pos = bytes.take pos := by
          rw [List.take_append_eq_append_take, Nat.sub_eq_zero_of_le (by omega)]
          simp
        have hdrop : (bytes ++ extra).drop (pos + 2)
            = bytes.drop (pos + 2) ++ extra := by
          rw [List.drop_append_eq_append_drop, Nat.sub_eq_zero_of_le (by omega)]
          simp
        rw [htake, hdrop]
        have hlt : (bytes.drop (pos + 2)).length < n := by
          rw [List.length_drop]; omega
        rw [ih _ hlt _ rfl]
        by_cases hdata : extract_data_lines (bytes.take pos) = [] <;>
          simp [hdata]

theorem fdn_block_delim (rest : List Char) : ∀ (block : List Char),
    find_double_newline block = none → block.getLast? ≠ some '\n' →
    find_double_newline (block ++ '\n' :: '\n' :: rest)
      = some block.length := by
  intro block
  induction block with
  | nil =>
      intro _ _
      simp [find_double_newline]
  | cons a t ih =>
      cases t with
      | nil =>
          intro _ hlast
          have ha : a ≠ '\n' := by simpa using hlast
          simp [find_double_newline, ha]
      | cons b t2 =>
          intro hnd hlast
          have hab : ¬ (a = '\n' ∧ b = '\n') := by
            intro hc
            simp [find_double_newline, hc] at hnd
          have hnd2 : find_double_newline (b :: t2) = none := by
            simp only [find_double_newline, if_neg hab] at hnd
            cases hx : find_double_newline (b :: t2) with
            | none => rfl
            | some q => rw [hx] at hnd; simp at hnd
          have hlast2 : (b :: t2).getLast? ≠ some '\n' := by
            rwa [List.getLast?_cons_cons] at hlast
          have hrec := ih hnd2 hlast2
          simp only [List.cons_append] at hrec ⊢
          simp [find_double_newline, hab, hrec]

theorem sse_extract_stream : ∀ (blocks : List (List Char)),
    (∀ b ∈ blocks, find_double_newline b = none ∧ b.getLast? ≠ some '\n') →
    sse_extract (sse_event_stream blocks)
      = ((blocks.map extract_data_lines).filter (fun d => d ≠ []), []) := by
  intro blocks
  induction blocks with
  | nil => intro _; rfl
  | cons b bs ih =>
      intro hwf
      have hb := hwf b (List.mem_cons_self b bs)
      have hstream : sse_event_stream (b :: bs)
          = b ++ '\n' :: '\n' :: sse_event_stream bs := by
        simp [sse_event_stream, List.flatten_cons, List.append_assoc]
      rw [hstream]
      have hfd := fdn_block_delim (sse_event_stream bs) b hb.1 hb.2
      rw [sse_extract_step hfd]
      have htake : (b ++ '\n' :: '\n' :: sse_event_stream bs).take b.length
          = b := List.take_left b _
      have hdrop : (b ++ '\n' :: '\n' :: sse_event_stream bs).drop
          (b.length + 2) = sse_event_stream bs := by
        rw [List.drop_append_eq_append_drop,
          List.drop_of_length_le (by omega : b.length ≤ b.length + 2)]
        simp
      rw [htake, hdrop, ih (fun g hg => hwf g (List.mem_cons_of_mem b hg))]
      by_cases hdata : extract_data_lines b = [] <;>
        simp [hdata, List.filter_cons]

theorem sse_decode_chunks_eq (b : List Char) (cs : List (List Char))
    (hq : sse_extract b = ([], b)) :
    SseEventParser.decode_chunks ⟨b⟩ cs
      = ((sse_extract (b ++ cs.flatten)).1,
        ⟨(sse_extract (b ++ cs.flatten)).2⟩) := by
  induction cs generalizing b with
  | nil => simp [SseEventParser.decode_chunks, hq]
  | cons c cs ih =>
      simp only [SseEventParser.decode_chunks, SseEventParser.decode]
      rw [ih _ (sse_extract_residual (b ++ c))]
      rw [show b ++ (c :: cs).flatten = b ++ c ++ cs.flatten from by
        simp [List.flatten_cons, List.append_assoc]]
      rw [sse_extract_append (b ++ c) cs.flatten]

/-- Counterexample to C8 as stated: the stream `data:\n\n` is one
complete event whose single block has a `data:` line (with empty value),
so the claim predicts one (empty-string) payload, but the parser drops
payloads whose joined data is empty and emits nothing. -/
theorem claim_c8_counterexample :
    (SseEventParser.decode SseEventParser.new ("data:\n\n".data)).1 = []
    ∧ "data:\n\n".data = sse_event_stream ["data:".data]
    ∧ sse_claim_payloads ["data:".data] = [[]] := by
  refine ⟨?_, ?_, ?_⟩ <;> decide

/-- C8 (amended): for every stream of N complete SSE events (each block
followed by the `\n\n` delimiter, containing no internal `\n\n` and not
ending in `\n`) and every chunk split of that stream, the parser emits
exactly the event payloads whose joined data is nonempty, in order; the
payload of a block is the concatenation of its `data` lines (leading
whitespace after the colon trimmed) joined by `\n`; `event:`, `id:`,
`retry:` and comment lines contribute nothing; a block with no `data`
lines — or whose joined data is empty — produces no payload; nothing is
buffered at the end. -/
theorem claim_c8_sse_events (blocks : List (List Char))
    (chunks : List (List Char))
    (hwf : ∀ b ∈ blocks, find_double_newline b = none ∧ b.getLast? ≠ some '\n')
    (hsplit : chunks.flatten = sse_event_stream blocks) :
    SseEventParser.decode_chunks SseEventParser.new chunks
      = ((blocks.map extract_data_lines).filter (fun d => d ≠ []),
        SseEventParser.new) := by
  have hq0 : sse_extract ([] : List Char) = ([], []) := rfl
  rw [show SseEventParser.new = (⟨[]⟩ : SseEventParser) from rfl]
  rw [sse_decode_chunks_eq [] chunks hq0, List.nil_append, hsplit,
    sse_extract_stream blocks hwf]

theorem str_nil_append (s : String) : "" ++ s = s := by
  obtain ⟨l⟩ := s
  rfl

theorem str_append_empty (s : String) : s ++ "" = s := by
  obtain ⟨l⟩ := s
  show String.mk (l ++ []) = String.mk l
  rw [List.append_nil]

theorem safe_append {ids : List String} {a b : String}
    (ha : SafeSql ids a) (hb : SafeSql ids b) : SafeSql ids (a ++ b) := by
  induction ha with
  | empty => rwa [str_nil_append]
  | fixed s t hs _ iht => rw [str_append_assoc]; exact .fixed s _ hs iht
  | ident i t hi _ iht => rw [str_append_assoc]; exact .ident i _ hi iht
  | num n t _ iht => rw [str_append_assoc]; exact .num n _ iht

theorem safe_token {ids : List String} {s : String} (h : s ∈ sql_tokens) :
    SafeSql ids s := by
  have := @SafeSql.fixed ids s "" h SafeSql.empty
  rwa [str_append_empty] at this

theorem safe_ident1 {ids : List String} {i : String} (h : i ∈ ids) :
    SafeSql ids (quote_ident i) := by
  have := @SafeSql.ident ids i "" h SafeSql.empty
  rwa [str_append_empty] at this

theorem safe_num1 {ids : List String} (n : Nat) : SafeSql ids (toString n) := by
  have := @SafeSql.num ids n "" SafeSql.empty
  rwa [str_append_empty] at this

theorem safe_join_sep {ids : List String} {sep : String}
    (hsep : sep ∈ sql_tokens) :
    ∀ parts : List String, (∀ p ∈ parts, SafeSql ids p) →
    SafeSql ids (join_sep sep parts) := by
  intro parts
  induction parts with
  | nil => intro _; exact .empty
  | cons x xs ih =>
      intro h
      cases xs with
      | nil => exact h x (List.mem_singleton.mpr rfl)
      | cons y ys =>
          show SafeSql ids (x ++ sep ++ join_sep sep (y :: ys))
          exact safe_append
            (safe_append (h x (by simp)) (safe_token hsep))
            (ih (fun p hp => h p (by simp [List.mem_cons] at hp ⊢; tauto)))

theorem safe_eq_param_clauses {ids : List String} :
    ∀ (off : Nat) (entries : List (String × String)),
    (∀ kv ∈ entries, kv.1 ∈ ids) →
    ∀ c ∈ eq_param_clauses off entries, SafeSql ids c := by
  intro off entries
  induction entries generalizing off with
  | nil => intro _ c hc; simp [eq_param_clauses] at hc
  | cons kv rest ih =>
      intro hk c hc
      obtain ⟨k, v⟩ := kv
      simp only [eq_param_clauses, List.mem_cons] at hc
      rcases hc with rfl | hc
      · exact safe_append
          (safe_append (safe_ident1 (hk (k, v) (by simp)))
            (safe_token (by simp [sql_tokens])))
          (safe_num1 _)
      · exact ih (off + 1) (fun kv2 hkv2 => hk kv2 (by simp [hkv2])) c hc

theorem eq_param_clauses_keys :
    ∀ (off : Nat) {e1 e2 : List (String × String)},
    e1.map Prod.fst = e2.map Prod.fst →
    eq_param_clauses off e1 = eq_param_clauses off e2 := by
  intro off e1
  induction e1 generalizing off with
  | nil =>
      intro e2 h
      cases e2 with
      | nil => rfl
      | cons kv2 rest2 => simp at h
  | cons kv rest ih =>
      intro e2 h
      cases e2 with
      | nil => simp at h
      | cons kv2 rest2 =>
          simp only [List.map_cons, List.cons.injEq] at h
          obtain ⟨hk, hrest⟩ := h
          simp [eq_param_clauses, hk, ih (off + 1) hrest]

theorem value_placeholders_len :
    ∀ (off : Nat) {e1 e2 : List (String × String)},
    e1.length = e2.length →
    value_placeholders off e1 = value_placeholders off e2 := by
  intro off e1
  induction e1 generalizing off with
  | nil =>
      intro e2 h
      cases e2 with
      | nil => rfl
      | cons kv2 rest2 => simp at h
  | cons kv rest ih =>
      intro e2 h
      cases e2 with
      | nil => simp at h
      | cons kv2 rest2 =>
          simp only [List.length_cons, Nat.add_right_cancel_iff] at h
          simp [value_placeholders, ih (off + 1) h]

theorem safe_value_placeholders {ids : List String} :
    ∀ (off : Nat) (entries : List (String × String)),
    ∀ c ∈ value_placeholders off entries, SafeSql ids c := by
  intro off entries
  induction entries generalizing off with
  | nil => intro c hc; simp [value_placeholders] at hc
  | cons kv rest ih =>
      intro c hc
      simp only [value_placeholders, List.mem_cons] at hc
      rcases hc with rfl | hc
      · exact safe_append (safe_token (by simp [sql_tokens])) (safe_num1 _)
      · exact ih (off + 1) c hc

theorem safe_where_clause {ids : List String} (off : Nat)
    (entries : List (String × String)) (hk : ∀ kv ∈ entries, kv.1 ∈ ids) :
    SafeSql ids (if (eq_param_clauses off entries).isEmpty then "TRUE"
      else join_sep " AND " (eq_param_clauses off entries)) := by
  split_ifs
  · exact safe_token (by simp [sql_tokens])
  · exact safe_join_sep (by simp [sql_tokens]) _
      (safe_eq_param_clauses off entries hk)

theorem safe_select_columns {ids : List String} (tpl : RequestTemplate)
    (hc : ∀ c ∈ tpl.columns, c ∈ ids) :
    SafeSql ids tpl.select_columns := by
  unfold RequestTemplate.select_columns
  split_ifs
  · exact safe_token (by simp [sql_tokens])
  · apply safe_join_sep (by simp [sql_tokens])
    intro p hp
    simp only [List.mem_map] at hp
    obtain ⟨c, hcmem, rfl⟩ := hp
    exact safe_ident1 (hc c hcmem)

theorem safe_sanitize {ids : List String} (rendered : String)
    (cols : List String) (hc : ∀ c ∈ cols, c ∈ ids) :
    SafeSql ids (sanitize_order_by rendered cols) := by
  unfold sanitize_order_by
  apply safe_join_sep (by simp [sql_tokens])
  intro p hp
  simp only [List.mem_filterMap] at hp
  obtain ⟨part, _, hpart⟩ := hp
  by_cases h0 : str_trim part = ""
  · rw [if_pos h0] at hpart
    cases hpart
  · rw [if_neg h0] at hpart
    cases hsw : split_whitespace (str_trim part) with
    | nil => rw [hsw] at hpart; cases hpart
    | cons col rest =>
        rw [hsw] at hpart
        dsimp only at hpart
        by_cases hcol : cols.contains col = true
        · have hmem : col ∈ ids := hc col (by simpa using hcol)
          rw [if_pos hcol] at hpart
          split_ifs at hpart <;>
            (injection hpart with hpart;
              subst hpart)
          · exact SafeSql.ident col " ASC" hmem (safe_token (by simp [sql_tokens]))
          · exact SafeSql.ident col " DESC" hmem (safe_token (by simp [sql_tokens]))
          · exact safe_ident1 hmem
        · rw [if_neg hcol] at hpart
          cases hpart

theorem keys_agree_error {pj pj' : JsonParser} (h : keys_agree pj pj')
    {s : String} {e : String} (he : pj s = .error e) : pj' s = .error e := by
  have hs := h s
  rw [he] at hs
  cases hx : pj' s with
  | error e2 =>
      rw [hx] at hs
      simp only [Except.map] at hs
      injection hs with hs
      rw [hs]
  | ok l =>
      rw [hx] at hs
      simp [Except.map] at hs

theorem keys_agree_ok {pj pj' : JsonParser} (h : keys_agree pj pj')
    {s : String} {entries : List (String × String)}
    (he : pj s = .ok entries) :
    ∃ entries', pj' s = .ok entries'
      ∧ entries'.map Prod.fst = entries.map Prod.fst := by
  have hs := h s
  rw [he] at hs
  cases hx : pj' s with
  | error e2 => rw [hx] at hs; simp [Except.map] at hs
  | ok l =>
      rw [hx] at hs
      simp only [Except.map] at hs
      injection hs with hs
      exact ⟨l, rfl, hs.symm⟩

theorem table_mem_idents (pj : JsonParser) (tpl : RequestTemplate)
    (ctx : RenderCtx) : tpl.table ∈ idents_of pj tpl ctx := by
  simp [idents_of]

theorem cols_mem_idents (pj : JsonParser) (tpl : RequestTemplate)
    (ctx : RenderCtx) : ∀ c ∈ tpl.columns, c ∈ idents_of pj tpl ctx := by
  intro c hc
  unfold idents_of
  rw [List.mem_cons]
  right
  rw [List.mem_append]
  left
  exact hc

theorem map_quote_keys {e1 e2 : List (String × String)}
    (h : e1.map Prod.fst = e2.map Prod.fst) :
    e1.map (fun kv => quote_ident kv.1) = e2.map (fun kv => quote_ident kv.1) := by
  have h1 : e1.map (fun kv => quote_ident kv.1)
      = (e1.map Prod.fst).map quote_ident := by
    rw [List.map_map]; rfl
  have h2 : e2.map (fun kv => quote_ident kv.1)
      = (e2.map Prod.fst).map quote_ident := by
    rw [List.map_map]; rfl
  rw [h1, h2, h]

theorem entries_len_eq {e1 e2 : List (String × String)}
    (h : e1.map Prod.fst = e2.map Prod.fst) : e1.length = e2.length := by
  have := congrArg List.length h
  simpa using this

theorem unknown_keys (cols : List String) :
    ∀ {e1 e2 : List (String × String)}, e1.map Prod.fst = e2.map Prod.fst →
    (e1.filter (fun kv => ¬ cols.contains kv.1)).map Prod.fst
      = (e2.filter (fun kv => ¬ cols.contains kv.1)).map Prod.fst := by
  intro e1
  induction e1 with
  | nil =>
      intro e2 h
      cases e2 with
      | nil => rfl
      | cons kv2 rest2 => simp at h
  | cons kv rest ih =>
      intro e2 h
      cases e2 with
      | nil => simp at h
      | cons kv2 rest2 =>
          simp only [List.map_cons, List.cons.injEq] at h
          obtain ⟨hk, hrest⟩ := h
          have hrec := ih hrest
          by_cases hp : kv2.1 ∈ cols <;>
            simpa [List.filter_cons, hk, hp] using hrec

theorem safe_order_by_stage {ids : List String} (ob : Option Mustache)
    (ctx : RenderCtx) (cols : List String) (s : String)
    (hs : SafeSql ids s) (hc : ∀ c ∈ cols, c ∈ ids) :
    SafeSql ids (RequestTemplate.order_by_stage ob ctx cols s) := by
  cases ob with
  | none => exact hs
  | some m =>
      simp only [RequestTemplate.order_by_stage]
      split_ifs
      · exact hs
      · exact hs
      · exact safe_append (safe_append hs (safe_token (by simp [sql_tokens])))
          (safe_sanitize _ cols hc)

theorem limit_stage_props {ids : List String} (l : Option Mustache)
    (ctx : RenderCtx) (acc : String × List String) (hs : SafeSql ids acc.1) :
    SafeSql ids (RequestTemplate.limit_stage l ctx acc).1
    ∧ ∀ v ∈ acc.2, v ∈ (RequestTemplate.limit_stage l ctx acc).2 := by
  cases l with
  | none => exact ⟨hs, fun v hv => hv⟩
  | some m =>
      simp only [RequestTemplate.limit_stage]
      split_ifs
      · exact ⟨hs, fun v hv => hv⟩
      · refine ⟨?_, fun v hv => by simp [hv]⟩
        exact safe_append
          (safe_append hs (safe_token (by simp [sql_tokens]))) (safe_num1 _)

theorem offset_stage_props {ids : List String} (o : Option Mustache)
    (ctx : RenderCtx) (acc : String × List String) (hs : SafeSql ids acc.1) :
    SafeSql ids (RequestTemplate.offset_stage o ctx acc).1
    ∧ ∀ v ∈ acc.2, v ∈ (RequestTemplate.offset_stage o ctx acc).2 := by
  cases o with
  | none => exact ⟨hs, fun v hv => hv⟩
  | some m =>
      simp only [RequestTemplate.offset_stage]
      split_ifs
      · exact ⟨hs, fun v hv => hv⟩
      · refine ⟨?_, fun v hv => by simp [hv]⟩
        exact safe_append
          (safe_append hs (safe_token (by simp [sql_tokens]))) (safe_num1 _)

theorem limit_stage_cong (l : Option Mustache) (ctx : RenderCtx)
    {acc acc' : String × List String} (h1 : acc.1 = acc'.1)
    (h2 : acc.2.length = acc'.2.length) :
    (RequestTemplate.limit_stage l ctx acc).1
      = (RequestTemplate.limit_stage l ctx acc').1
    ∧ (RequestTemplate.limit_stage l ctx acc).2.length
      = (RequestTemplate.limit_stage l ctx acc').2.length := by
  cases l with
  | none => exact ⟨h1, h2⟩
  | some m =>
      simp only [RequestTemplate.limit_stage]
      split_ifs
      · exact ⟨h1, h2⟩
      · simp [h1, h2]

theorem offset_stage_cong (o : Option Mustache) (ctx : RenderCtx)
    {acc acc' : String × List String} (h1 : acc.1 = acc'.1)
    (h2 : acc.2.length = acc'.2.length) :
    (RequestTemplate.offset_stage o ctx acc).1
      = (RequestTemplate.offset_stage o ctx acc').1
    ∧ (RequestTemplate.offset_stage o ctx acc).2.length
      = (RequestTemplate.offset_stage o ctx acc').2.length := by
  cases o with
  | none => exact ⟨h1, h2⟩
  | some m =>
      simp only [RequestTemplate.offset_stage]
      split_ifs
      · exact ⟨h1, h2⟩
      · simp [h1, h2]

theorem c1_delete (pj : JsonParser) (tpl : RequestTemplate) (ctx : RenderCtx)
    (q : RenderedQuery) (hop : tpl.operation = .Delete)
    (h : RequestTemplate.render pj tpl ctx = .ok q) :
    SafeSql (idents_of pj tpl ctx) q.sql
    ∧ (∀ kv ∈ entries_used pj tpl ctx, kv.2 ∈ q.params)
    ∧ ∀ pj', keys_agree pj pj' →
        Except.map RenderedQuery.sql (RequestTemplate.render pj' tpl ctx)
          = .ok q.sql := by
  simp only [RequestTemplate.render, hop] at h ⊢
  cases hf : tpl.filter with
  | none =>
      simp [RequestTemplate.render_delete, hf, throw, throwThe, bind,
        Except.bind] at h
  | some f =>
      cases hpj : pj (Mustache.render f ctx) with
      | error e =>
          simp [RequestTemplate.render_delete, hf, RequestTemplate.render_filter,
            hpj, throw, throwThe, bind, Except.bind, pure, Except.pure] at h
      | ok entries =>
          simp only [RequestTemplate.render_delete, hf,
            RequestTemplate.render_filter, hpj, throw, throwThe, bind,
            Except.bind, pure, Except.pure, Option.isNone_some, Bool.false_eq_true,
            if_false, Except.ok.injEq] at h
          subst h
          have hkeys : ∀ kv ∈ entries, kv.1 ∈ idents_of pj tpl ctx := by
            intro kv hkv
            unfold idents_of
            rw [List.mem_cons]
            right
            rw [List.mem_append]
            right
            simp only [entries_used, hop, filter_entries, hf, hpj,
              Except.toOption, Option.getD_some]
            exact List.mem_map_of_mem Prod.fst hkv
          refine ⟨?_, ?_, ?_⟩
          · exact safe_append
              (safe_append
                (safe_append (safe_token (by simp [sql_tokens]))
                  (safe_ident1 (by simp [idents_of])))
                (safe_token (by simp [sql_tokens])))
              (safe_where_clause 0 entries hkeys)
          · intro kv hkv
            simp only [entries_used, hop, filter_entries, hf, hpj,
              Except.toOption, Option.getD_some] at hkv
            exact List.mem_map_of_mem Prod.snd hkv
          · intro pj' hagree
            obtain ⟨entries', hpj', hkeys'⟩ := keys_agree_ok hagree hpj
            simp only [RequestTemplate.render_delete, hf,
              RequestTemplate.render_filter, hpj', throw, throwThe, bind,
              Except.bind, pure, Except.pure, Option.isNone_some,
              Bool.false_eq_true, if_false, Except.map]
            rw [eq_param_clauses_keys 0 hkeys']

theorem c1_select (pj : JsonParser) (tpl : RequestTemplate) (ctx : RenderCtx)
    (q : RenderedQuery) (hop : tpl.operation = .Select)
    (h : RequestTemplate.render pj tpl ctx = .ok q) :
    SafeSql (idents_of pj tpl ctx) q.sql
    ∧ (∀ kv ∈ entries_used pj tpl ctx, kv.2 ∈ q.params)
    ∧ ∀ pj', keys_agree pj pj' →
        Except.map RenderedQuery.sql (RequestTemplate.render pj' tpl ctx)
          = .ok q.sql := by
  simp only [RequestTemplate.render, hop] at h ⊢
  have hcols := cols_mem_idents pj tpl ctx
  have hsql0 : SafeSql (idents_of pj tpl ctx)
      ("SELECT " ++ tpl.select_columns ++ " FROM " ++ quote_ident tpl.table) :=
    safe_append
      (safe_append (safe_append (safe_token (by simp [sql_tokens]))
        (safe_select_columns tpl hcols))
        (safe_token (by simp [sql_tokens])))
      (safe_ident1 (table_mem_idents pj tpl ctx))
  cases hf : tpl.filter with
  | none =>
      simp only [RequestTemplate.render_select, hf, bind, Except.bind, pure,
        Except.pure, Except.ok.injEq] at h
      subst h
      refine ⟨?_, ?_, ?_⟩
      · exact (offset_stage_props _ _ _
          ((limit_stage_props _ _ _
            (safe_order_by_stage _ _ _ _ hsql0 hcols)).1)).1
      · intro kv hkv
        simp [entries_used, hop, filter_entries, hf] at hkv
      · intro pj' _
        simp only [RequestTemplate.render_select, hf, bind, Except.bind, pure,
          Except.pure, Except.map]
  | some f =>
      cases hpj : pj (Mustache.render f ctx) with
      | error e =>
          simp [RequestTemplate.render_select, hf,
            RequestTemplate.render_filter, hpj, bind, Except.bind, pure,
            Except.pure] at h
      | ok entries =>
          simp only [RequestTemplate.render_select, hf,
            RequestTemplate.render_filter, hpj, bind, Except.bind, pure,
            Except.pure, Except.ok.injEq] at h
          subst h
          have hkeys : ∀ kv ∈ entries, kv.1 ∈ idents_of pj tpl ctx := by
            intro kv hkv
            unfold idents_of
            rw [List.mem_cons]
            right
            rw [List.mem_append]
            right
            simp only [entries_used, hop, filter_entries, hf, hpj,
              Except.toOption, Option.getD_some]
            exact List.mem_map_of_mem Prod.fst hkv
          have hsql1 : SafeSql (idents_of pj tpl ctx)
              ("SELECT " ++ tpl.select_columns ++ " FROM "
                ++ quote_ident tpl.table ++ " WHERE "
                ++ (if (eq_param_clauses 0 entries).isEmpty then "TRUE"
                    else join_sep " AND " (eq_param_clauses 0 entries))) :=
            safe_append (safe_append hsql0 (safe_token (by simp [sql_tokens])))
              (safe_where_clause 0 entries hkeys)
          refine ⟨?_, ?_, ?_⟩
          · exact (offset_stage_props _ _ _
              ((limit_stage_props _ _ _
                (safe_order_by_stage _ _ _ _ hsql1 hcols)).1)).1
          · intro kv hkv
            simp only [entries_used, hop, filter_entries, hf, hpj,
              Except.toOption, Option.getD_some] at hkv
            have h1 : kv.2 ∈ entries.map Prod.snd :=
              List.mem_map_of_mem Prod.snd hkv
            exact (offset_stage_props _ _ _
                ((@limit_stage_props (idents_of pj tpl ctx) _ _ _
                  (safe_order_by_stage _ _ _ _ hsql1 hcols)).1)).2 _
              ((@limit_stage_props (idents_of pj tpl ctx) _ _ _
                (safe_order_by_stage _ _ _ _ hsql1 hcols)).2 _ h1)
          · intro pj' hagree
            obtain ⟨entries', hpj', hkeys'⟩ := keys_agree_ok hagree hpj
            simp only [RequestTemplate.render_select, hf,
              RequestTemplate.render_filter, hpj', bind, Except.bind, pure,
              Except.pure, Except.map]
            have hclause : eq_param_clauses 0 entries'
                = eq_param_clauses 0 entries := eq_param_clauses_keys 0 hkeys'
            have hsqleq :
                ("SELECT " ++ tpl.select_columns ++ " FROM "
                  ++ quote_ident tpl.table ++ " WHERE "
                  ++ (if (eq_param_clauses 0 entries').isEmpty then "TRUE"
                      else join_sep " AND " (eq_param_clauses 0 entries')))
                = ("SELECT " ++ tpl.select_columns ++ " FROM "
                  ++ quote_ident tpl.table ++ " WHERE "
                  ++ (if (eq_param_clauses 0 entries).isEmpty then "TRUE"
                      else join_sep " AND " (eq_param_clauses 0 entries))) := by
              rw [hclause]
            have hlen : (entries'.map Prod.snd).length
                = (entries.map Prod.snd).length := by
              simp [entries_len_eq hkeys']
            have horder : RequestTemplate.order_by_stage tpl.order_by ctx
                tpl.columns ("SELECT " ++ tpl.select_columns ++ " FROM "
                  ++ quote_ident tpl.table ++ " WHERE "
                  ++ (if (eq_param_clauses 0 entries').isEmpty then "TRUE"
                      else join_sep " AND " (eq_param_clauses 0 entries')))
                = RequestTemplate.order_by_stage tpl.order_by ctx tpl.columns
                  ("SELECT " ++ tpl.select_columns ++ " FROM "
                  ++ quote_ident tpl.table ++ " WHERE "
                  ++ (if (eq_param_clauses 0 entries).isEmpty then "TRUE"
                      else join_sep " AND " (eq_param_clauses 0 entries))) := by
              rw [hsqleq]
            have hlimit := @limit_stage_cong tpl.limit ctx
              (_, entries'.map Prod.snd)
              (_, entries.map Prod.snd) horder hlen
            have hoffset := offset_stage_cong tpl.offset ctx hlimit.1 hlimit.2
            exact congrArg Except.ok hoffset.1

theorem c1_select_one (pj : JsonParser) (tpl : RequestTemplate)
    (ctx : RenderCtx) (q : RenderedQuery) (hop : tpl.operation = .SelectOne)
    (h : RequestTemplate.render pj tpl ctx = .ok q) :
    SafeSql (idents_of pj tpl ctx) q.sql
    ∧ (∀ kv ∈ entries_used pj tpl ctx, kv.2 ∈ q.params)
    ∧ ∀ pj', keys_agree pj pj' →
        Except.map RenderedQuery.sql (RequestTemplate.render pj' tpl ctx)
          = .ok q.sql := by
  simp only [RequestTemplate.render, hop] at h ⊢
  have hcols := cols_mem_idents pj tpl ctx
  have hsql0 : SafeSql (idents_of pj tpl ctx)
      ("SELECT " ++ tpl.select_columns ++ " FROM " ++ quote_ident tpl.table) :=
    safe_append
      (safe_append (safe_append (safe_token (by simp [sql_tokens]))
        (safe_select_columns tpl hcols))
        (safe_token (by simp [sql_tokens])))
      (safe_ident1 (table_mem_idents pj tpl ctx))
  cases hf : tpl.filter with
  | none =>
      simp only [RequestTemplate.render_select_one, hf, bind, Except.bind, pure,
        Except.pure, Except.ok.injEq] at h
      subst h
      refine ⟨?_, ?_, ?_⟩
      · exact safe_append hsql0 (safe_token (by simp [sql_tokens]))
      · intro kv hkv
        simp [entries_used, hop, filter_entries, hf] at hkv
      · intro pj' _
        simp only [RequestTemplate.render_select_one, hf, bind, Except.bind,
          pure, Except.pure, Except.map]
  | some f =>
      cases hpj : pj (Mustache.render f ctx) with
      | error e =>
          simp [RequestTemplate.render_select_one, hf,
            RequestTemplate.render_filter, hpj, bind, Except.bind, pure,
            Except.pure] at h
      | ok entries =>
          simp only [RequestTemplate.render_select_one, hf,
            RequestTemplate.render_filter, hpj, bind, Except.bind, pure,
            Except.pure, Except.ok.injEq] at h
          subst h
          have hkeys : ∀ kv ∈ entries, kv.1 ∈ idents_of pj tpl ctx := by
            intro kv hkv
            unfold idents_of
            rw [List.mem_cons]
            right
            rw [List.mem_append]
            right
            simp only [entries_used, hop, filter_entries, hf, hpj,
              Except.toOption, Option.getD_some]
            exact List.mem_map_of_mem Prod.fst hkv
          refine ⟨?_, ?_, ?_⟩
          · exact safe_append
              (safe_append (safe_append hsql0 (safe_token (by simp [sql_tokens])))
                (safe_where_clause 0 entries hkeys))
              (safe_token (by simp [sql_tokens]))
          · intro kv hkv
            simp only [entries_used, hop, filter_entries, hf, hpj,
              Except.toOption, Option.getD_some] at hkv
            exact List.mem_map_of_mem Prod.snd hkv
          · intro pj' hagree
            obtain ⟨entries', hpj', hkeys'⟩ := keys_agree_ok hagree hpj
            simp only [RequestTemplate.render_select_one, hf,
              RequestTemplate.render_filter, hpj', bind, Except.bind, pure,
              Except.pure, Except.map]
            rw [eq_param_clauses_keys 0 hkeys']

theorem c1_insert (pj : JsonParser) (tpl : RequestTemplate) (ctx : RenderCtx)
    (q : RenderedQuery) (hop : tpl.operation = .Insert)
    (h : RequestTemplate.render pj tpl ctx = .ok q) :
    SafeSql (idents_of pj tpl ctx) q.sql
    ∧ (∀ kv ∈ entries_used pj tpl ctx, kv.2 ∈ q.params)
    ∧ ∀ pj', keys_agree pj pj' →
        Except.map RenderedQuery.sql (RequestTemplate.render pj' tpl ctx)
          = .ok q.sql := by
  simp only [RequestTemplate.render, hop] at h ⊢
  cases hpj : pj ((tpl.input.map (fun m => Mustache.render m ctx)).getD "") with
  | error e =>
      simp [RequestTemplate.render_insert, hpj, bind, Except.bind, pure,
        Except.pure, throw, throwThe] at h
  | ok entries =>
      simp [RequestTemplate.render_insert, hpj, bind, Except.bind,
        pure, Except.pure, throw, throwThe] at h
      split_ifs at h with hemp hunk
      simp only [Except.ok.injEq] at h
      subst h
      have hkeys : ∀ kv ∈ entries, kv.1 ∈ idents_of pj tpl ctx := by
        intro kv hkv
        unfold idents_of
        rw [List.mem_cons]
        right
        rw [List.mem_append]
        right
        simp only [entries_used, hop, input_entries, hpj,
          Except.toOption, Option.getD_some]
        exact List.mem_map_of_mem Prod.fst hkv
      have hcl : SafeSql (idents_of pj tpl ctx)
          (join_sep ", " (entries.map (fun kv => quote_ident kv.1))) := by
        apply safe_join_sep (by simp [sql_tokens])
        intro p hp
        simp only [List.mem_map] at hp
        obtain ⟨kv, hkv, rfl⟩ := hp
        exact safe_ident1 (hkeys kv hkv)
      refine ⟨?_, ?_, ?_⟩
      · exact safe_append (safe_append (safe_append (safe_append
          (safe_append (safe_append (safe_append
            (safe_token (by simp [sql_tokens]))
            (safe_ident1 (table_mem_idents pj tpl ctx)))
            (safe_token (by simp [sql_tokens])))
            hcl)
            (safe_token (by simp [sql_tokens])))
            (safe_join_sep (by simp [sql_tokens]) _
              (safe_value_placeholders 0 entries)))
            (safe_token (by simp [sql_tokens])))
          (safe_select_columns tpl (cols_mem_idents pj tpl ctx))
      · intro kv hkv
        simp only [entries_used, hop, input_entries, hpj,
          Except.toOption, Option.getD_some] at hkv
        exact List.mem_map_of_mem Prod.snd hkv
      · intro pj' hagree
        obtain ⟨entries', hpj', hkeys'⟩ := keys_agree_ok hagree hpj
        have huk := unknown_keys tpl.columns hkeys'
        have hemp' : ¬ entries'.isEmpty = true := by
          cases entries' <;> cases entries <;> simp_all
        have hunk' : ¬ (¬ tpl.columns.isEmpty ∧
            ¬ ((entries'.filter
              (fun kv => ¬ tpl.columns.contains kv.1)).map Prod.fst).isEmpty) := by
          intro hc
          apply hunk
          rwa [huk] at hc
        simp only [RequestTemplate.render_insert, hpj', bind, Except.bind]
        rw [if_neg hemp', if_neg hunk']
        simp only [bind, Except.bind, pure, Except.pure, Except.map]
        rw [map_quote_keys hkeys',
          value_placeholders_len 0 (entries_len_eq hkeys')]

theorem c1_update (pj : JsonParser) (tpl : RequestTemplate) (ctx : RenderCtx)
    (q : RenderedQuery) (hop : tpl.operation = .Update)
    (h : RequestTemplate.render pj tpl ctx = .ok q) :
    SafeSql (idents_of pj tpl ctx) q.sql
    ∧ (∀ kv ∈ entries_used pj tpl ctx, kv.2 ∈ q.params)
    ∧ ∀ pj', keys_agree pj pj' →
        Except.map RenderedQuery.sql (RequestTemplate.render pj' tpl ctx)
          = .ok q.sql := by
  simp only [RequestTemplate.render, hop] at h ⊢
  cases hf : tpl.filter with
  | none =>
      simp [RequestTemplate.render_update, hf, throw, throwThe, bind,
        Except.bind] at h
  | some f =>
      cases hpj : pj ((tpl.input.map (fun m => Mustache.render m ctx)).getD "") with
      | error e =>
          simp [RequestTemplate.render_update, hf, hpj, bind, Except.bind,
            pure, Except.pure, throw, throwThe] at h
      | ok entries =>
          simp [RequestTemplate.render_update, hf, hpj, bind, Except.bind,
            pure, Except.pure, throw, throwThe] at h
          split_ifs at h with hemp hunk
          cases hpf : pj (Mustache.render f ctx) with
          | error e2 =>
              have hrf : RequestTemplate.render_filter pj f ctx entries.length
                  = .error e2 := by
                simp only [RequestTemplate.render_filter, hpf, bind, Except.bind]
              rw [hrf] at h
              simp at h
          | ok fentries =>
              have hrf : RequestTemplate.render_filter pj f ctx entries.length
                  = .ok (if (eq_param_clauses entries.length fentries).isEmpty
                        then "TRUE"
                        else join_sep " AND "
                          (eq_param_clauses entries.length fentries),
                      fentries.map Prod.snd) := by
                simp only [RequestTemplate.render_filter, hpf, bind,
                  Except.bind, pure, Except.pure]
              rw [hrf] at h
              simp only [bind, Except.bind, pure, Except.pure,
                Except.ok.injEq] at h
              subst h
              have hkin : ∀ kv ∈ entries, kv.1 ∈ idents_of pj tpl ctx := by
                intro kv hkv
                unfold idents_of
                rw [List.mem_cons]
                right
                rw [List.mem_append]
                right
                simp only [entries_used, hop, input_entries, filter_entries,
                  hf, hpj, hpf, Except.toOption, Option.getD_some]
                rw [List.map_append, List.mem_append]
                left
                exact List.mem_map_of_mem Prod.fst hkv
              have hkf : ∀ kv ∈ fentries, kv.1 ∈ idents_of pj tpl ctx := by
                intro kv hkv
                unfold idents_of
                rw [List.mem_cons]
                right
                rw [List.mem_append]
                right
                simp only [entries_used, hop, input_entries, filter_entries,
                  hf, hpj, hpf, Except.toOption, Option.getD_some]
                rw [List.map_append, List.mem_append]
                right
                exact List.mem_map_of_mem Prod.fst hkv
              refine ⟨?_, ?_, ?_⟩
              · exact safe_append (safe_append (safe_append (safe_append
                  (safe_append (safe_append (safe_append
                    (safe_token (by simp [sql_tokens]))
                    (safe_ident1 (table_mem_idents pj tpl ctx)))
                    (safe_token (by simp [sql_tokens])))
                    (safe_join_sep (by simp [sql_tokens]) _
                      (safe_eq_param_clauses 0 entries hkin)))
                    (safe_token (by simp [sql_tokens])))
                    (safe_where_clause entries.length fentries hkf))
                    (safe_token (by simp [sql_tokens])))
                  (safe_select_columns tpl (cols_mem_idents pj tpl ctx))
              · intro kv hkv
                simp only [entries_used, hop, input_entries, filter_entries,
                  hf, hpj, hpf, Except.toOption, Option.getD_some] at hkv
                rw [List.mem_append] at hkv ⊢
                rcases hkv with hkv | hkv
                · exact Or.inl (List.mem_map_of_mem Prod.snd hkv)
                · exact Or.inr (List.mem_map_of_mem Prod.snd hkv)
              · intro pj' hagree
                obtain ⟨entries', hpj', hkin'⟩ := keys_agree_ok hagree hpj
                obtain ⟨fentries', hpf', hkf'⟩ := keys_agree_ok hagree hpf
                have huk := unknown_keys tpl.columns hkin'
                have hemp' : ¬ entries'.isEmpty = true := by
                  cases entries' <;> cases entries <;> simp_all
                have hunk' : ¬ (¬ tpl.columns.isEmpty ∧
                    ¬ ((entries'.filter
                      (fun kv => ¬ tpl.columns.contains kv.1)).map
                        Prod.fst).isEmpty) := by
                  intro hc
                  apply hunk
                  rwa [huk] at hc
                have hrf' : RequestTemplate.render_filter pj' f ctx
                    (entries'.map Prod.snd).length
                    = .ok (if (eq_param_clauses (entries'.map Prod.snd).length
                            fentries').isEmpty
                          then "TRUE"
                          else join_sep " AND "
                            (eq_param_clauses (entries'.map Prod.snd).length
                              fentries'),
                        fentries'.map Prod.snd) := by
                  simp only [RequestTemplate.render_filter, hpf', bind,
                    Except.bind, pure, Except.pure]
                simp only [RequestTemplate.render_update, hf, hpj', bind,
                  Except.bind, Option.isNone_some, Bool.false_eq_true, if_false]
                rw [if_neg hemp', if_neg hunk', hrf']
                simp only [bind, Except.bind, pure, Except.pure, Except.map]
                have hlen : (entries'.map Prod.snd).length = entries.length := by
                  simp [entries_len_eq hkin']
                rw [hlen, eq_param_clauses_keys 0 hkin',
                  eq_param_clauses_keys entries.length hkf']

/-- C1: for every JSON-parser behaviour, every PostgreSQL request
template and every evaluation context, a successfully rendered query is
injection-safe: (1) its `sql` string lies in the `SafeSql` grammar over
the template's identifiers -- it is built only from fixed SQL fragments,
identifiers passed through `quote_ident` (double-quoted with embedded
double quotes doubled) and decimal placeholder numerals, so every
identifier in the SQL is quoted; (2) every literal value parsed from the
filter or input JSON is placed in the `params` vector; and (3) the `sql`
string depends only on the parsed keys, never on the values: any parser
returning the same key lists yields the identical `sql` string, so no
value is ever spliced into the SQL text. -/
theorem claim_c1_sql_parameterization (pj : JsonParser)
    (tpl : RequestTemplate) (ctx : RenderCtx) (q : RenderedQuery)
    (h : RequestTemplate.render pj tpl ctx = .ok q) :
    SafeSql (idents_of pj tpl ctx) q.sql
    ∧ (∀ kv ∈ entries_used pj tpl ctx, kv.2 ∈ q.params)
    ∧ ∀ pj', keys_agree pj pj' →
        Except.map RenderedQuery.sql (RequestTemplate.render pj' tpl ctx)
          = .ok q.sql := by
  cases hop : tpl.operation with
  | Select => exact c1_select pj tpl ctx q hop h
  | SelectOne => exact c1_select_one pj tpl ctx q hop h
  | Insert => exact c1_insert pj tpl ctx q hop h
  | Update => exact c1_update pj tpl ctx q hop h
  | Delete => exact c1_delete pj tpl ctx q hop h

/-- Witness for C1 at a concrete DELETE template: the parser reads one
filter entry `("id", "42")`, the rendered SQL quotes the identifiers and
carries the value only as the `$1` parameter. -/
theorem claim_c1_witness :
    RequestTemplate.render (fun _ => Except.ok [("id", "42")])
        (RequestTemplate.mk "users" PostgresOperation.Delete (some "f") none
          none none none ["id"]) (fun _ => "")
      = Except.ok (RenderedQuery.mk "DELETE FROM \"users\" WHERE \"id\" = $1"
          ["42"])
    ∧ SafeSql
        (idents_of (fun _ => Except.ok [("id", "42")])
          (RequestTemplate.mk "users" PostgresOperation.Delete (some "f") none
            none none none ["id"]) (fun _ => ""))
        "DELETE FROM \"users\" WHERE \"id\" = $1"
    ∧ "42" ∈ (RenderedQuery.mk "DELETE FROM \"users\" WHERE \"id\" = $1"
        ["42"]).params := by
  refine ⟨by rfl, ?_, ?_⟩
  · exact (claim_c1_sql_parameterization (fun _ => Except.ok [("id", "42")])
      (RequestTemplate.mk "users" PostgresOperation.Delete (some "f") none
        none none none ["id"]) (fun _ => "")
      (RenderedQuery.mk "DELETE FROM \"users\" WHERE \"id\" = $1" ["42"])
      (by rfl)).1
  · exact (claim_c1_sql_parameterization (fun _ => Except.ok [("id", "42")])
      (RequestTemplate.mk "users" PostgresOperation.Delete (some "f") none
        none none none ["id"]) (fun _ => "")
      (RenderedQuery.mk "DELETE FROM \"users\" WHERE \"id\" = $1" ["42"])
      (by rfl)).2.1 ("id", "42") (by decide)

/-- Witness for C8 at a concrete two-event stream split across uneven
chunk boundaries: the first event has data `hi`, the second has no data
lines. -/
theorem claim_c8_witness :
    SseEventParser.decode_chunks SseEventParser.new
        ["data: h".data, "i\n\nevent:".data, " ping\n\n".data]
      = ([['h', 'i']], SseEventParser.new) :=
  (claim_c8_sse_events ["data: hi".data, "event: ping".data]
    ["data: h".data, "i\n\nevent:".data, " ping\n\n".data]
    (by decide) (by decide)).trans (by decide)

end Gqlforge
